import Mathlib

/-
Verification development for the simdjson C bridge (src/simdjson/bridge.cpp).

The bridge turns raw JSON bytes into a flat little-endian token stream and
serves fast-path queries (nested field lookup, length, keys, array mapping)
from a SIMD-parsed representation.  We shallow-embed the bridge code over an
abstract syntax tree of parsed JSON documents; bytes are modelled as Nat,
buffers as List Nat, machine integers as Nat/Int with explicit reductions
modulo powers of two.  The simdjson library itself is not part of the
repository; where its behaviour decides a property, the corresponding
definition is modelled from the specification and marked as such.
-/

-- ---------------------------------------------------------------------------
-- Constants (token tags, limits, error codes)
-- ---------------------------------------------------------------------------

def TAG_NULL : Nat := 0
def TAG_BOOL : Nat := 1
def TAG_INT : Nat := 2
def TAG_DOUBLE : Nat := 3
def TAG_STRING : Nat := 4
def TAG_ARRAY_START : Nat := 5
def TAG_ARRAY_END : Nat := 6
def TAG_OBJECT_START : Nat := 7
def TAG_OBJECT_END : Nat := 8

def MAX_DEPTH : Nat := 1024

/-- simdjson stable error codes (values as in simdjson error_code). -/
def DEPTH_ERROR : Int := 4

def NUMBER_ERROR : Int := 9

def BIGINT_ERROR : Int := 10

/-- Soft sentinel: fast path inapplicable, caller must fall back. -/
def SOFT_MISS : Int := -2

def INT64_MAX : Nat := 2 ^ 63 - 1

-- ---------------------------------------------------------------------------
-- Parsed-document model.
-- A number node records its parser classification (spec section 3): a
-- signed 64-bit integer, an unsigned 64-bit integer above the signed range,
-- a floating-point number, or a big integer beyond 64-bit range.  Number
-- nodes carry the raw source token bytes (raw_json_token of the on-demand
-- parser) and, for doubles, the IEEE-754 bit pattern the parser produced
-- (we never interpret those bits).  Strings are stored unescaped.
-- ---------------------------------------------------------------------------

inductive JValue where
  | jnull : JValue
  | jbool (b : Bool) : JValue
  | jsint (v : Int) (tok : List Nat) : JValue
  | juint (v : Nat) (tok : List Nat) : JValue
  | jdbl (bits : Nat) (tok : List Nat) : JValue
  | jbig (v : Int) (bits : Nat) (tok : List Nat) : JValue
  | jstr (s : List Nat) : JValue
  | jarr (xs : List JValue) : JValue
  | jobj (fs : List (List Nat × JValue)) : JValue

-- ---------------------------------------------------------------------------
-- Byte-level emission helpers (bridge.cpp lines 224-291).  The C++ helpers
-- append to a byte vector; we return the bytes they append.
-- ---------------------------------------------------------------------------

/-- emit_u32: four little-endian bytes of a 32-bit value. -/
def emit_u32 (v : Nat) : List Nat :=
  [v % 256, (v >>> 8) % 256, (v >>> 16) % 256, (v >>> 24) % 256]

/-- eight little-endian bytes of a 64-bit value. -/
def emit_u64 (v : Nat) : List Nat :=
  [v % 256, (v >>> 8) % 256, (v >>> 16) % 256, (v >>> 24) % 256,
   (v >>> 32) % 256, (v >>> 40) % 256, (v >>> 48) % 256, (v >>> 56) % 256]

/-- emit_i64: twos-complement little-endian encoding of an int64. -/
def emit_i64 (v : Int) : List Nat :=
  emit_u64 (v % (2 ^ 64 : Int)).toNat

/-- emit_f64: the double is written as its 64 raw bits (we keep the bit
pattern abstract as a Nat). -/
def emit_f64 (bits : Nat) : List Nat :=
  emit_u64 bits

/-- emit_string: tag 4, u32 length, then the unescaped bytes. -/
def emit_string (s : List Nat) : List Nat :=
  TAG_STRING :: emit_u32 s.length ++ s

/-- trim_number_len (bridge.cpp 259-271): length of the longest prefix of
valid JSON number characters [0-9+\-.eE]. -/
def is_number_char (c : Nat) : Bool :=
  decide (48 ≤ c ∧ c ≤ 57) || c == 46 || c == 45 || c == 43 || c == 101 || c == 69

def trim_number_len : List Nat → Nat
  | [] => 0
  | c :: rest => if is_number_char c then 1 + trim_number_len rest else 0

/-- emit_double_with_raw (bridge.cpp 274-283): tag 3, f64 bits, u32 raw
length, then the trimmed raw source text. -/
def emit_double_with_raw (bits : Nat) (raw : List Nat) : List Nat :=
  TAG_DOUBLE :: emit_f64 bits ++ emit_u32 (trim_number_len raw) ++ raw.take (trim_number_len raw)

-- ---------------------------------------------------------------------------
-- Spec-modelled parser-side facts.
-- ---------------------------------------------------------------------------

mutual

/-- Modelled from the spec: nesting depth of containers in a document.  Both
SIMD parsers bound it at the fixed limit 1024; exceeding the limit fails the
parse with a depth error and no output (spec sections 3 and 8).  The parsing
front end is part of the simdjson library, not of this repository. -/
def containerDepth : JValue → Nat
  | .jarr xs => 1 + depthList xs
  | .jobj fs => 1 + depthFields fs
  | _ => 0

def depthList : List JValue → Nat
  | [] => 0
  | x :: xs => max (containerDepth x) (depthList xs)

def depthFields : List (List Nat × JValue) → Nat
  | [] => 0
  | (_, v) :: fs => max (containerDepth v) (depthFields fs)

end

mutual

/-- Modelled from the spec: the tape (DOM) parser rejects documents containing
integers beyond 64-bit range with a number error; the flattener detects the
specific error codes and retries on demand (spec sections 4.3 and 9). -/
def hasBig : JValue → Bool
  | .jbig _ _ _ => true
  | .jarr xs => hasBigList xs
  | .jobj fs => hasBigFields fs
  | _ => false

def hasBigList : List JValue → Bool
  | [] => false
  | x :: xs => hasBig x || hasBigList xs

def hasBigFields : List (List Nat × JValue) → Bool
  | [] => false
  | (_, v) :: fs => hasBig v || hasBigFields fs

end

-- ---------------------------------------------------------------------------
-- Path A: on-demand flatten (bridge.cpp flatten_ondemand, lines 335-397).
-- The u64-to-double conversion static_cast<double>(u) is a language-level
-- primitive we leave abstract: u2d maps the u64 value to the bit pattern of
-- the converted double.  A number whose get_number call reports BIGINT_ERROR
-- is a jbig node; its bits field models the strtod fallback result
-- (emit_number_or_bigint, lines 298-307).  emit_number (310-333) is inlined
-- in the number cases below.
-- ---------------------------------------------------------------------------

mutual

def flatten_ondemand (u2d : Nat → Nat) : JValue → Nat → Except Int (List Nat)
  | v, depth =>
    if depth > MAX_DEPTH then .error DEPTH_ERROR
    else
      match v with
      | .jnull => .ok [TAG_NULL]
      | .jbool b => .ok [TAG_BOOL, if b then 1 else 0]
      | .jsint n _ => .ok (TAG_INT :: emit_i64 n)
      | .juint u tok =>
          if u ≤ INT64_MAX then .ok (TAG_INT :: emit_i64 (Int.ofNat u))
          else .ok (emit_double_with_raw (u2d u) tok)
      | .jdbl bits tok => .ok (emit_double_with_raw bits tok)
      | .jbig _ bits tok => .ok (emit_double_with_raw bits tok)
      | .jstr s => .ok (emit_string s)
      | .jarr xs =>
          match flatten_ondemand_list u2d xs (depth + 1) with
          | .error e => .error e
          | .ok body =>
              .ok (TAG_ARRAY_START :: emit_u32 xs.length ++ body ++ [TAG_ARRAY_END])
      | .jobj fs =>
          match flatten_ondemand_fields u2d fs (depth + 1) with
          | .error e => .error e
          | .ok body =>
              .ok (TAG_OBJECT_START :: emit_u32 fs.length ++ body ++ [TAG_OBJECT_END])

def flatten_ondemand_list (u2d : Nat → Nat) : List JValue → Nat → Except Int (List Nat)
  | [], _ => .ok []
  | x :: xs, depth =>
    match flatten_ondemand u2d x depth with
    | .error e => .error e
    | .ok a =>
        match flatten_ondemand_list u2d xs depth with
        | .error e => .error e
        | .ok b => .ok (a ++ b)

def flatten_ondemand_fields (u2d : Nat → Nat) : List (List Nat × JValue) → Nat → Except Int (List Nat)
  | [], _ => .ok []
  | (k, v) :: fs, depth =>
    match flatten_ondemand u2d v depth with
    | .error e => .error e
    | .ok a =>
        match flatten_ondemand_fields u2d fs depth with
        | .error e => .error e
        | .ok b => .ok (emit_string k ++ a ++ b)

end

/-- jx_dom_to_flat (bridge.cpp 404-461): parse with the on-demand parser and
flatten.  Containers go through flatten_ondemand at depth 0; scalar documents
are emitted directly from the document object (lines 420-448), with exactly
the same per-type emission.  The depth gate models the parser-side limit
(spec: exceeding 1024 fails the call with a depth error). -/
def jx_dom_to_flat (u2d : Nat → Nat) (v : JValue) : Except Int (List Nat) :=
  if containerDepth v > MAX_DEPTH then .error DEPTH_ERROR
  else
    match v with
    | .jarr _ => flatten_ondemand u2d v 0
    | .jobj _ => flatten_ondemand u2d v 0
    | .jnull => .ok [TAG_NULL]
    | .jbool b => .ok [TAG_BOOL, if b then 1 else 0]
    | .jsint n _ => .ok (TAG_INT :: emit_i64 n)
    | .juint u tok =>
        if u ≤ INT64_MAX then .ok (TAG_INT :: emit_i64 (Int.ofNat u))
        else .ok (emit_double_with_raw (u2d u) tok)
    | .jdbl bits tok => .ok (emit_double_with_raw bits tok)
    | .jbig _ bits tok => .ok (emit_double_with_raw bits tok)
    | .jstr s => .ok (emit_string s)

-- ---------------------------------------------------------------------------
-- Path B: tape walk with a parallel byte cursor (bridge.cpp 474-626).
-- The cursor is the list of source bytes not yet consumed.
-- ---------------------------------------------------------------------------

/-- advance_cursor skips whitespace, commas and colons (bridge.cpp 481-485). -/
def is_skippable (c : Nat) : Bool :=
  c == 32 || c == 10 || c == 13 || c == 9 || c == 44 || c == 58

def advance_cursor (cursor : List Nat) : List Nat :=
  cursor.dropWhile is_skippable

/-- Loop of skip_json_string after the opening quote (bridge.cpp 488-496):
advance to just past the first unescaped closing quote.  The C code relies on
the padded-buffer contract to stay in bounds; on an exhausted list we stop. -/
def skip_string_body : List Nat → List Nat
  | [] => []
  | c :: rest =>
    if c == 34 then rest
    else if c == 92 then
      match rest with
      | [] => []
      | _ :: r => skip_string_body r
    else skip_string_body rest

/-- skip_json_string: skip the opening quote, then scan for the close. -/
def skip_json_string (cursor : List Nat) : List Nat :=
  skip_string_body cursor.tail

def is_digit_byte (c : Nat) : Bool :=
  decide (48 ≤ c ∧ c ≤ 57)

mutual

/-- walk_element (bridge.cpp 498-593): emit the token stream for one element
while moving the byte cursor across its source text.  Returns the emitted
bytes together with the cursor after the element.  The jbig case cannot occur
on this path: the DOM parser has no big-integer element type (parsing already
failed and jx_dom_to_flat_via_tape fell back); we map it to the
engine-internal failure code. -/
def walk_element (u2d : Nat → Nat) : JValue → List Nat → Nat → Except Int (List Nat × List Nat)
  | v, cursor, depth =>
    if depth > MAX_DEPTH then .error DEPTH_ERROR
    else
      let cursor := advance_cursor cursor
      match v with
      | .jstr s => .ok (emit_string s, skip_json_string cursor)
      | .jsint n _ =>
          let c1 := if cursor.headD 0 == 45 then cursor.tail else cursor
          .ok (TAG_INT :: emit_i64 n, c1.dropWhile is_digit_byte)
      | .juint u _ =>
          let raw := cursor.takeWhile is_digit_byte
          let c1 := cursor.dropWhile is_digit_byte
          if u ≤ INT64_MAX then .ok (TAG_INT :: emit_i64 (Int.ofNat u), c1)
          else .ok (emit_double_with_raw (u2d u) raw, c1)
      | .jdbl bits _ =>
          let raw := cursor.takeWhile is_number_char
          let c1 := cursor.dropWhile is_number_char
          .ok (emit_double_with_raw bits raw, c1)
      | .jbig _ _ _ => .error (-1)
      | .jbool b =>
          .ok ([TAG_BOOL, if b then 1 else 0], cursor.drop (if b then 4 else 5))
      | .jnull => .ok ([TAG_NULL], cursor.drop 4)
      | .jarr xs =>
          match walk_element_list u2d xs cursor.tail (depth + 1) with
          | .error e => .error e
          | .ok (body, c1) =>
              .ok (TAG_ARRAY_START :: emit_u32 xs.length ++ body ++ [TAG_ARRAY_END],
                   (advance_cursor c1).tail)
      | .jobj fs =>
          match walk_element_fields u2d fs cursor.tail (depth + 1) with
          | .error e => .error e
          | .ok (body, c1) =>
              .ok (TAG_OBJECT_START :: emit_u32 fs.length ++ body ++ [TAG_OBJECT_END],
                   (advance_cursor c1).tail)

def walk_element_list (u2d : Nat → Nat) : List JValue → List Nat → Nat → Except Int (List Nat × List Nat)
  | [], cursor, _ => .ok ([], cursor)
  | x :: xs, cursor, depth =>
    match walk_element u2d x cursor depth with
    | .error e => .error e
    | .ok (a, c1) =>
        match walk_element_list u2d xs c1 depth with
        | .error e => .error e
        | .ok (b, c2) => .ok (a ++ b, c2)

def walk_element_fields (u2d : Nat → Nat) : List (List Nat × JValue) → List Nat → Nat → Except Int (List Nat × List Nat)
  | [], cursor, _ => .ok ([], cursor)
  | (k, v) :: fs, cursor, depth =>
    let c1 := skip_json_string (advance_cursor cursor)
    match walk_element u2d v c1 depth with
    | .error e => .error e
    | .ok (a, c2) =>
        match walk_element_fields u2d fs c2 depth with
        | .error e => .error e
        | .ok (b, c3) => .ok (emit_string k ++ a ++ b, c3)

end

/-- jx_dom_to_flat_via_tape (bridge.cpp 602-626): DOM-parse, then walk the
tape with the parallel cursor.  The DOM parse itself is simdjson library
code, modelled from the spec: it fails with a depth error beyond the 1024
limit and with a number error on documents holding integers beyond 64-bit
range; on NUMBER_ERROR or BIGINT_ERROR the bridge falls back to the
on-demand path (which is jx_dom_to_flat itself). -/
def jx_dom_to_flat_via_tape (u2d : Nat → Nat) (v : JValue) (src : List Nat) : Except Int (List Nat) :=
  if containerDepth v > MAX_DEPTH then .error DEPTH_ERROR
  else if hasBig v then jx_dom_to_flat u2d v
  else
    match walk_element u2d v src 0 with
    | .error e => .error e
    | .ok (flat, _) => .ok flat

-- ---------------------------------------------------------------------------
-- Source-layout relation: which byte strings are a well-formed source
-- rendering of a parsed document.  SrcRepr v src rest holds when src begins
-- with a rendering of v (first byte of the value itself, no leading
-- whitespace) and leaves exactly rest.  The shapes follow the JSON grammar
-- as both simdjson parsers accept it; number tokens must match the
-- raw_json_token annotation stored in the number node, and the byte after a
-- number token must not be a number character (in valid JSON it is
-- whitespace, a comma, a closing bracket, or the zero padding).
-- ---------------------------------------------------------------------------

abbrev AllSkippable (j : List Nat) : Prop := ∀ c ∈ j, is_skippable c = true

abbrev AllDigits (t : List Nat) : Prop := ∀ c ∈ t, is_digit_byte c = true

abbrev AllNumberChars (t : List Nat) : Prop := ∀ c ∈ t, is_number_char c = true

/-- String body after the opening quote: characters with escapes, then the
closing quote, then the remainder. -/
inductive StrBody : List Nat → List Nat → Prop
  | close (rest : List Nat) : StrBody (34 :: rest) rest
  | plain (c : Nat) (s rest : List Nat) :
      c ≠ 34 → c ≠ 92 → StrBody s rest → StrBody (c :: s) rest
  | esc (c : Nat) (s rest : List Nat) :
      StrBody s rest → StrBody (92 :: c :: s) rest

mutual

inductive SrcRepr : JValue → List Nat → List Nat → Prop
  | snull (rest : List Nat) :
      SrcRepr .jnull (110 :: 117 :: 108 :: 108 :: rest) rest
  | strue (rest : List Nat) :
      SrcRepr (.jbool true) (116 :: 114 :: 117 :: 101 :: rest) rest
  | sfalse (rest : List Nat) :
      SrcRepr (.jbool false) (102 :: 97 :: 108 :: 115 :: 101 :: rest) rest
  | sintPos (n : Int) (digits rest : List Nat) :
      digits ≠ [] → AllDigits digits → is_number_char (rest.headD 0) = false →
      SrcRepr (.jsint n digits) (digits ++ rest) rest
  | sintNeg (n : Int) (digits rest : List Nat) :
      digits ≠ [] → AllDigits digits → is_number_char (rest.headD 0) = false →
      SrcRepr (.jsint n (45 :: digits)) (45 :: (digits ++ rest)) rest
  | suint (u : Nat) (digits rest : List Nat) :
      digits ≠ [] → AllDigits digits → is_number_char (rest.headD 0) = false →
      SrcRepr (.juint u digits) (digits ++ rest) rest
  | sdbl (bits : Nat) (tok rest : List Nat) :
      tok ≠ [] → AllNumberChars tok → is_number_char (rest.headD 0) = false →
      SrcRepr (.jdbl bits tok) (tok ++ rest) rest
  | sstr (s body rest : List Nat) :
      StrBody body rest → SrcRepr (.jstr s) (34 :: body) rest
  | sarr (xs : List JValue) (s j rest : List Nat) :
      SeqRepr xs s (j ++ 93 :: rest) → AllSkippable j →
      SrcRepr (.jarr xs) (91 :: s) rest
  | sobj (fs : List (List Nat × JValue)) (s j rest : List Nat) :
      ObjRepr fs s (j ++ 125 :: rest) → AllSkippable j →
      SrcRepr (.jobj fs) (123 :: s) rest

inductive SeqRepr : List JValue → List Nat → List Nat → Prop
  | nil (s : List Nat) : SeqRepr [] s s
  | cons (x : JValue) (xs : List JValue) (j s mid out : List Nat) :
      AllSkippable j → SrcRepr x s mid → SeqRepr xs mid out →
      SeqRepr (x :: xs) (j ++ s) out

inductive ObjRepr : List (List Nat × JValue) → List Nat → List Nat → Prop
  | nil (s : List Nat) : ObjRepr [] s s
  | cons (k : List Nat) (v : JValue) (fs : List (List Nat × JValue))
      (j kbody j2 vs mid out : List Nat) :
      AllSkippable j → StrBody kbody (j2 ++ vs) → AllSkippable j2 →
      SrcRepr v vs mid → ObjRepr fs mid out →
      ObjRepr ((k, v) :: fs) (j ++ 34 :: kbody) out

end

-- Basic facts about the byte classes.

theorem skippable_not_number_char (c : Nat) :
    is_skippable c = true → is_number_char c = false := by
  simp [is_skippable, is_number_char]
  omega

theorem digit_is_number_char (c : Nat) :
    is_digit_byte c = true → is_number_char c = true := by
  simp [is_digit_byte, is_number_char]
  omega

theorem digit_not_skippable (c : Nat) :
    is_digit_byte c = true → is_skippable c = false := by
  simp [is_digit_byte, is_skippable]
  omega

theorem number_char_not_skippable (c : Nat) :
    is_number_char c = true → is_skippable c = false := by
  simp [is_number_char, is_skippable]
  omega

-- List-scanning lemmas used to track the parallel cursor.

theorem dropWhile_append_all {p : Nat → Bool} :
    ∀ (xs s : List Nat), (∀ c ∈ xs, p c = true) →
      List.dropWhile p (xs ++ s) = List.dropWhile p s := by
  intro xs
  induction xs with
  | nil => intro s _; rfl
  | cons c t ih =>
      intro s h
      have hc : p c = true := h c (by simp)
      simp [List.dropWhile, hc]
      exact ih s (fun d hd => h d (by simp [hd]))

theorem dropWhile_headD_false {p : Nat → Bool} (s : List Nat)
    (h : p (s.headD 0) = false) : List.dropWhile p s = s := by
  cases s with
  | nil => rfl
  | cons c t => simp [List.headD] at h; simp [List.dropWhile, h]

theorem dropWhile_all_headD {p : Nat → Bool} (xs rest : List Nat)
    (hall : ∀ c ∈ xs, p c = true) (hr : p (rest.headD 0) = false) :
    List.dropWhile p (xs ++ rest) = rest := by
  rw [dropWhile_append_all xs rest hall]
  exact dropWhile_headD_false rest hr

theorem takeWhile_all_headD {p : Nat → Bool} :
    ∀ (xs rest : List Nat), (∀ c ∈ xs, p c = true) → p (rest.headD 0) = false →
    List.takeWhile p (xs ++ rest) = xs := by
  intro xs
  induction xs with
  | nil =>
      intro rest _ hr
      cases rest with
      | nil => rfl
      | cons c t => simp [List.headD] at hr; simp [List.takeWhile, hr]
  | cons c t ih =>
      intro rest h hr
      have hc : p c = true := h c (by simp)
      simp [List.takeWhile, hc]
      exact ih rest (fun d hd => h d (by simp [hd])) hr

theorem advance_cursor_junk (j s : List Nat) (hj : AllSkippable j)
    (hh : is_skippable (s.headD 0) = false) : advance_cursor (j ++ s) = s := by
  unfold advance_cursor
  rw [dropWhile_append_all j s hj]
  exact dropWhile_headD_false s hh

theorem skip_string_body_cons (c : Nat) (rest : List Nat) :
    skip_string_body (c :: rest) =
      if c == 34 then rest
      else if c == 92 then
        match rest with
        | [] => []
        | _ :: r => skip_string_body r
      else skip_string_body rest := by
  rw [skip_string_body.eq_def]

theorem skip_string_body_eq {s rest : List Nat} (h : StrBody s rest) :
    skip_string_body s = rest := by
  induction h with
  | close rest => simp [skip_string_body_cons]
  | plain c s rest hc hb _ ih =>
      rw [skip_string_body_cons]
      simp only [beq_iff_eq, if_neg hc, if_neg hb]
      exact ih
  | esc c s rest _ ih =>
      rw [skip_string_body_cons]
      simpa using ih

theorem src_head {v : JValue} {s r : List Nat} (h : SrcRepr v s r) :
    s ≠ [] ∧ is_skippable (s.headD 0) = false := by
  cases h with
  | snull rest => exact ⟨by simp, by simp only [List.headD_cons]; decide⟩
  | strue rest => exact ⟨by simp, by simp only [List.headD_cons]; decide⟩
  | sfalse rest => exact ⟨by simp, by simp only [List.headD_cons]; decide⟩
  | sintPos n digits rest hne hall _ =>
      cases digits with
      | nil => exact absurd rfl hne
      | cons d t =>
          refine ⟨by simp, ?_⟩
          have hd : is_digit_byte d = true := hall d (by simp)
          simpa using digit_not_skippable d hd
  | sintNeg n digits rest hne hall _ =>
      exact ⟨by simp, by simp only [List.headD_cons]; decide⟩
  | suint u digits rest hne hall _ =>
      cases digits with
      | nil => exact absurd rfl hne
      | cons d t =>
          refine ⟨by simp, ?_⟩
          have hd : is_digit_byte d = true := hall d (by simp)
          simpa using digit_not_skippable d hd
  | sdbl bits tok rest hne hall _ =>
      cases tok with
      | nil => exact absurd rfl hne
      | cons d t =>
          refine ⟨by simp, ?_⟩
          have hd : is_number_char d = true := hall d (by simp)
          simpa using number_char_not_skippable d hd
  | sstr s body rest _ => exact ⟨by simp, by simp only [List.headD_cons]; decide⟩
  | sarr xs s j rest _ _ => exact ⟨by simp, by simp only [List.headD_cons]; decide⟩
  | sobj fs s j rest _ _ => exact ⟨by simp, by simp only [List.headD_cons]; decide⟩

-- Trimming facts.

theorem trim_number_len_cons_true (c : Nat) (t : List Nat) (h : is_number_char c = true) :
    trim_number_len (c :: t) = trim_number_len t + 1 := by
  simp [trim_number_len, h, Nat.add_comm]

theorem trim_number_len_eq_takeWhile (raw : List Nat) :
    trim_number_len raw = (raw.takeWhile is_number_char).length := by
  induction raw with
  | nil => rfl
  | cons c t ih =>
      by_cases h : is_number_char c = true
      · rw [trim_number_len_cons_true c t h, ih]
        simp [List.takeWhile, h]
      · simp at h
        simp [trim_number_len, h, List.takeWhile]

theorem take_trim_number_len (raw : List Nat) :
    raw.take (trim_number_len raw) = raw.takeWhile is_number_char := by
  induction raw with
  | nil => rfl
  | cons c t ih =>
      by_cases h : is_number_char c = true
      · rw [trim_number_len_cons_true c t h, List.take_succ_cons, ih]
        simp [List.takeWhile, h]
      · simp at h
        simp [trim_number_len, h, List.takeWhile]

theorem trim_number_len_all (t : List Nat) (h : AllNumberChars t) :
    trim_number_len t = t.length := by
  induction t with
  | nil => rfl
  | cons c r ih =>
      have hc : is_number_char c = true := h c (by simp)
      rw [trim_number_len_cons_true c r hc,
          ih (fun d hd => h d (by simp [hd]))]
      simp

theorem emit_double_with_raw_all (bits : Nat) (t : List Nat) (h : AllNumberChars t) :
    emit_double_with_raw bits t =
      TAG_DOUBLE :: emit_f64 bits ++ emit_u32 t.length ++ t := by
  unfold emit_double_with_raw
  rw [trim_number_len_all t h]
  simp

-- Except.map computation rules.

theorem except_map_ok {α β : Type} (f : α → β) (a : α) :
    (Except.ok a : Except Int α).map f = .ok (f a) := rfl

theorem except_map_error {α β : Type} (f : α → β) (e : Int) :
    (Except.error e : Except Int α).map f = .error e := rfl

-- Byte-class consequences used by the number-skipping steps.

theorem not_number_not_digit (c : Nat) :
    is_number_char c = false → is_digit_byte c = false := by
  intro h
  cases hd : is_digit_byte c with
  | false => rfl
  | true => rw [digit_is_number_char c hd] at h; exact absurd h (by simp)

theorem digit_ne_minus (c : Nat) :
    is_digit_byte c = true → (c == 45) = false := by
  simp [is_digit_byte]
  omega

-- Depth-overflow behaviour of both walkers.

theorem walk_element_depth (u2d : Nat → Nat) (v : JValue) (cursor : List Nat)
    (d : Nat) (hd : d > MAX_DEPTH) :
    walk_element u2d v cursor d = .error DEPTH_ERROR := by
  rw [walk_element.eq_def]
  simp [hd]

theorem flatten_ondemand_depth (u2d : Nat → Nat) (v : JValue) (d : Nat)
    (hd : d > MAX_DEPTH) :
    flatten_ondemand u2d v d = .error DEPTH_ERROR := by
  rw [flatten_ondemand.eq_def]
  simp [hd]

-- ---------------------------------------------------------------------------
-- The two flatten paths agree: the tape walk with parallel cursor produces
-- exactly the bytes of the on-demand flatten and leaves the cursor after the
-- element, for every well-laid-out source rendering.  Proved by strong
-- induction on the size of the element.
-- ---------------------------------------------------------------------------

theorem walk_matches_main : ∀ n : Nat,
    (∀ (u2d : Nat → Nat) (v : JValue) (src rest junk : List Nat) (d : Nat),
        sizeOf v ≤ n → SrcRepr v src rest → AllSkippable junk →
        walk_element u2d v (junk ++ src) d =
          (flatten_ondemand u2d v d).map (fun out => (out, rest))) ∧
    (∀ (u2d : Nat → Nat) (xs : List JValue) (s out : List Nat) (d : Nat),
        sizeOf xs ≤ n → SeqRepr xs s out →
        walk_element_list u2d xs s d =
          (flatten_ondemand_list u2d xs d).map (fun o => (o, out))) ∧
    (∀ (u2d : Nat → Nat) (fs : List (List Nat × JValue)) (s out : List Nat) (d : Nat),
        sizeOf fs ≤ n → ObjRepr fs s out →
        walk_element_fields u2d fs s d =
          (flatten_ondemand_fields u2d fs d).map (fun o => (o, out))) := by
  intro n
  induction n using Nat.strong_induction_on with
  | _ n ih =>
  refine ⟨?_, ?_, ?_⟩
  · -- single element
    intro u2d v src rest junk d hsz hrepr hjunk
    by_cases hd : d > MAX_DEPTH
    · rw [walk_element_depth u2d v _ d hd, flatten_ondemand_depth u2d v d hd,
          except_map_error]
    cases hrepr with
    | snull rest =>
        have hadv := advance_cursor_junk junk (110 :: 117 :: 108 :: 108 :: rest) hjunk
          (by simp only [List.headD_cons]; decide)
        rw [walk_element.eq_def, flatten_ondemand.eq_def]
        simp [hd, hadv, except_map_ok]
    | strue rest =>
        have hadv := advance_cursor_junk junk (116 :: 114 :: 117 :: 101 :: rest) hjunk
          (by simp only [List.headD_cons]; decide)
        rw [walk_element.eq_def, flatten_ondemand.eq_def]
        simp [hd, hadv, except_map_ok]
    | sfalse rest =>
        have hadv := advance_cursor_junk junk (102 :: 97 :: 108 :: 115 :: 101 :: rest) hjunk
          (by simp only [List.headD_cons]; decide)
        rw [walk_element.eq_def, flatten_ondemand.eq_def]
        simp [hd, hadv, except_map_ok]
    | sintPos nv digits rest hne hall hrest =>
        cases digits with
        | nil => exact absurd rfl hne
        | cons c t =>
            have hc : is_digit_byte c = true := hall c (by simp)
            have hc45 : c ≠ 45 := by
              have h48 := hc
              simp [is_digit_byte] at h48
              omega
            have hadv : advance_cursor (junk ++ c :: (t ++ rest)) = c :: (t ++ rest) := by
              have h0 := advance_cursor_junk junk ((c :: t) ++ rest) hjunk
                (by simp only [List.cons_append, List.headD_cons]
                    exact digit_not_skippable c hc)
              simpa using h0
            have hdrop : List.dropWhile is_digit_byte (c :: (t ++ rest)) = rest := by
              have h0 := dropWhile_all_headD (c :: t) rest hall
                (not_number_not_digit _ hrest)
              simpa using h0
            rw [walk_element.eq_def, flatten_ondemand.eq_def]
            simp [hd, hadv, except_map_ok, hc45, hdrop]
    | sintNeg nv digits rest hne hall hrest =>
        have hadv : advance_cursor (junk ++ 45 :: (digits ++ rest)) = 45 :: (digits ++ rest) :=
          advance_cursor_junk junk (45 :: (digits ++ rest)) hjunk
            (by simp only [List.headD_cons]; decide)
        have hdrop : List.dropWhile is_digit_byte (digits ++ rest) = rest :=
          dropWhile_all_headD _ _ hall (not_number_not_digit _ hrest)
        rw [walk_element.eq_def, flatten_ondemand.eq_def]
        simp [hd, hadv, except_map_ok, hdrop]
    | suint u digits rest hne hall hrest =>
        cases digits with
        | nil => exact absurd rfl hne
        | cons c t =>
            have hc : is_digit_byte c = true := hall c (by simp)
            have hadv : advance_cursor (junk ++ c :: (t ++ rest)) = c :: (t ++ rest) := by
              have h0 := advance_cursor_junk junk ((c :: t) ++ rest) hjunk
                (by simp only [List.cons_append, List.headD_cons]
                    exact digit_not_skippable c hc)
              simpa using h0
            have hdrop : List.dropWhile is_digit_byte (c :: (t ++ rest)) = rest := by
              have h0 := dropWhile_all_headD (c :: t) rest hall
                (not_number_not_digit _ hrest)
              simpa using h0
            have htake : List.takeWhile is_digit_byte (c :: (t ++ rest)) = c :: t := by
              have h0 := takeWhile_all_headD (c :: t) rest hall
                (not_number_not_digit _ hrest)
              simpa using h0
            rw [walk_element.eq_def, flatten_ondemand.eq_def]
            by_cases hu : u ≤ INT64_MAX
            · simp [hd, hadv, except_map_ok, hdrop, htake, hu]
            · simp [hd, hadv, except_map_ok, hdrop, htake, hu]
    | sdbl bits tok rest hne hall hrest =>
        cases tok with
        | nil => exact absurd rfl hne
        | cons c t =>
            have hc : is_number_char c = true := hall c (by simp)
            have hadv : advance_cursor (junk ++ c :: (t ++ rest)) = c :: (t ++ rest) := by
              have h0 := advance_cursor_junk junk ((c :: t) ++ rest) hjunk
                (by simp only [List.cons_append, List.headD_cons]
                    exact number_char_not_skippable c hc)
              simpa using h0
            have hdrop : List.dropWhile is_number_char (c :: (t ++ rest)) = rest := by
              have h0 := dropWhile_all_headD (c :: t) rest hall hrest
              simpa using h0
            have htake : List.takeWhile is_number_char (c :: (t ++ rest)) = c :: t := by
              have h0 := takeWhile_all_headD (c :: t) rest hall hrest
              simpa using h0
            rw [walk_element.eq_def, flatten_ondemand.eq_def]
            simp [hd, hadv, except_map_ok, hdrop, htake]
    | sstr s body rest hbody =>
        have hadv := advance_cursor_junk junk (34 :: body) hjunk
          (by simp only [List.headD_cons]; decide)
        rw [walk_element.eq_def, flatten_ondemand.eq_def]
        simp [hd, hadv, except_map_ok, skip_json_string,
              skip_string_body_eq hbody]
    | sarr xs s j rest hseq hj =>
        have hadv := advance_cursor_junk junk (91 :: s) hjunk
          (by simp only [List.headD_cons]; decide)
        have hxs : sizeOf xs < n := by
          have : sizeOf xs < sizeOf (JValue.jarr xs) := by
            simp only [JValue.jarr.sizeOf_spec]
            omega
          omega
        have hlist := (ih (sizeOf xs) hxs).2.1 u2d xs s (j ++ 93 :: rest) (d + 1)
          (le_refl _) hseq
        have hclose := advance_cursor_junk j (93 :: rest) hj
          (by simp only [List.headD_cons]; decide)
        rw [walk_element.eq_def, flatten_ondemand.eq_def]
        cases hfl : flatten_ondemand_list u2d xs (d + 1) with
        | error e =>
            rw [hfl, except_map_error] at hlist
            simp [hd, hadv, hlist, hfl, except_map_error]
        | ok body =>
            rw [hfl, except_map_ok] at hlist
            simp [hd, hadv, hlist, hfl, hclose, except_map_ok]
    | sobj fs s j rest hseq hj =>
        have hadv := advance_cursor_junk junk (123 :: s) hjunk
          (by simp only [List.headD_cons]; decide)
        have hfs : sizeOf fs < n := by
          have : sizeOf fs < sizeOf (JValue.jobj fs) := by
            simp only [JValue.jobj.sizeOf_spec]
            omega
          omega
        have hfields := (ih (sizeOf fs) hfs).2.2 u2d fs s (j ++ 125 :: rest) (d + 1)
          (le_refl _) hseq
        have hclose := advance_cursor_junk j (125 :: rest) hj
          (by simp only [List.headD_cons]; decide)
        rw [walk_element.eq_def, flatten_ondemand.eq_def]
        cases hfl : flatten_ondemand_fields u2d fs (d + 1) with
        | error e =>
            rw [hfl, except_map_error] at hfields
            simp [hd, hadv, hfields, hfl, except_map_error]
        | ok body =>
            rw [hfl, except_map_ok] at hfields
            simp [hd, hadv, hfields, hfl, hclose, except_map_ok]
  · -- element list
    intro u2d xs s out d hsz hseq
    cases hseq with
    | nil s =>
        rw [walk_element_list.eq_def, flatten_ondemand_list.eq_def]
        simp [except_map_ok]
    | cons x xs j s mid out hj hx hrest =>
        have hxlt : sizeOf x < n := by
          have : sizeOf x < sizeOf (x :: xs) := by
            simp only [List.cons.sizeOf_spec]
            omega
          omega
        have hxslt : sizeOf xs < n := by
          have : sizeOf xs < sizeOf (x :: xs) := by
            simp only [List.cons.sizeOf_spec]
            omega
          omega
        have h1 := (ih (sizeOf x) hxlt).1 u2d x s mid j d (le_refl _) hx hj
        have h2 := (ih (sizeOf xs) hxslt).2.1 u2d xs mid out d (le_refl _) hrest
        rw [walk_element_list.eq_def, flatten_ondemand_list.eq_def]
        cases hfx : flatten_ondemand u2d x d with
        | error e =>
            rw [hfx, except_map_error] at h1
            simp [h1, hfx, except_map_error]
        | ok a =>
            rw [hfx, except_map_ok] at h1
            cases hfxs : flatten_ondemand_list u2d xs d with
            | error e =>
                rw [hfxs, except_map_error] at h2
                simp [h1, hfx, h2, hfxs, except_map_error]
            | ok b =>
                rw [hfxs, except_map_ok] at h2
                simp [h1, hfx, h2, hfxs, except_map_ok]
  · -- field list
    intro u2d fs s out d hsz hseq
    cases hseq with
    | nil s =>
        rw [walk_element_fields.eq_def, flatten_ondemand_fields.eq_def]
        simp [except_map_ok]
    | cons k v fs j kbody j2 vs mid out hj hkey hj2 hv hrest =>
        have hvlt : sizeOf v < n := by
          have : sizeOf v < sizeOf ((k, v) :: fs) := by
            simp only [List.cons.sizeOf_spec, Prod.mk.sizeOf_spec]
            omega
          omega
        have hfslt : sizeOf fs < n := by
          have : sizeOf fs < sizeOf ((k, v) :: fs) := by
            simp only [List.cons.sizeOf_spec, Prod.mk.sizeOf_spec]
            omega
          omega
        have hadv := advance_cursor_junk j (34 :: kbody) hj
          (by simp only [List.headD_cons]; decide)
        have hskip : skip_json_string (34 :: kbody) = j2 ++ vs := by
          simp [skip_json_string, skip_string_body_eq hkey]
        have h1 := (ih (sizeOf v) hvlt).1 u2d v vs mid j2 d (le_refl _) hv hj2
        have h2 := (ih (sizeOf fs) hfslt).2.2 u2d fs mid out d (le_refl _) hrest
        rw [walk_element_fields.eq_def, flatten_ondemand_fields.eq_def]
        cases hfx : flatten_ondemand u2d v d with
        | error e =>
            rw [hfx, except_map_error] at h1
            simp [hadv, hskip, h1, hfx, except_map_error]
        | ok a =>
            rw [hfx, except_map_ok] at h1
            cases hfxs : flatten_ondemand_fields u2d fs d with
            | error e =>
                rw [hfxs, except_map_error] at h2
                simp [hadv, hskip, h1, hfx, h2, hfxs, except_map_error]
            | ok b =>
                rw [hfxs, except_map_ok] at h2
                simp [hadv, hskip, h1, hfx, h2, hfxs, except_map_ok]

/-- The scalar-document special casing in jx_dom_to_flat emits exactly what
flatten_ondemand emits at depth 0. -/
theorem jx_dom_to_flat_eq_flatten (u2d : Nat → Nat) (v : JValue)
    (hdep : ¬ containerDepth v > MAX_DEPTH) :
    jx_dom_to_flat u2d v = flatten_ondemand u2d v 0 := by
  cases v with
  | jnull =>
      rw [jx_dom_to_flat, flatten_ondemand.eq_def]
      simp [hdep, containerDepth, MAX_DEPTH]
  | jbool b =>
      rw [jx_dom_to_flat, flatten_ondemand.eq_def]
      simp [hdep, containerDepth, MAX_DEPTH]
  | jsint n tok =>
      rw [jx_dom_to_flat, flatten_ondemand.eq_def]
      simp [hdep, containerDepth, MAX_DEPTH]
  | juint u tok =>
      rw [jx_dom_to_flat, flatten_ondemand.eq_def]
      simp [hdep, containerDepth, MAX_DEPTH]
  | jdbl bits tok =>
      rw [jx_dom_to_flat, flatten_ondemand.eq_def]
      simp [hdep, containerDepth, MAX_DEPTH]
  | jbig n bits tok =>
      rw [jx_dom_to_flat, flatten_ondemand.eq_def]
      simp [hdep, containerDepth, MAX_DEPTH]
  | jstr s =>
      rw [jx_dom_to_flat, flatten_ondemand.eq_def]
      simp [hdep, containerDepth, MAX_DEPTH]
  | jarr xs =>
      rw [jx_dom_to_flat]
      simp [hdep]
  | jobj fs =>
      rw [jx_dom_to_flat]
      simp [hdep]

/-- Helper: the tape path refines the on-demand path on every valid input.
The hypothesis covers all valid documents: either the source is a
well-laid-out rendering of the parse (SrcRepr), or the document holds a
big integer, in which case the DOM parse is rejected and the tape path
falls back to the on-demand path wholesale. -/
theorem flat_tape_refines (u2d : Nat → Nat) (v : JValue)
    (junk src rest : List Nat) (hjunk : AllSkippable junk)
    (h : SrcRepr v src rest ∨ hasBig v = true) :
    jx_dom_to_flat_via_tape u2d v (junk ++ src) = jx_dom_to_flat u2d v := by
  by_cases hdep : containerDepth v > MAX_DEPTH
  · rw [jx_dom_to_flat_via_tape, jx_dom_to_flat.eq_def]
    simp [hdep]
  by_cases hbig : hasBig v = true
  · rw [jx_dom_to_flat_via_tape]
    simp [hdep, hbig]
  have hrepr : SrcRepr v src rest := by
    rcases h with h | h
    · exact h
    · exact absurd h hbig
  have hwalk := (walk_matches_main (sizeOf v)).1 u2d v src rest junk 0
    (le_refl _) hrepr hjunk
  rw [jx_dom_to_flat_eq_flatten u2d v hdep, jx_dom_to_flat_via_tape]
  cases hfl : flatten_ondemand u2d v 0 with
  | error e =>
      rw [hfl, except_map_error] at hwalk
      simp [hdep, hbig, hwalk]
  | ok out =>
      rw [hfl, except_map_ok] at hwalk
      simp [hdep, hbig, hwalk]

/-- C1: for every valid JSON input obeying the padded-buffer contract —
either the source bytes are a well-laid-out rendering of the parsed
document, or the document holds an integer beyond 64-bit range, in which
case the tape parse is rejected with NUMBER_ERROR/BIGINT_ERROR and the tape
path falls back to the on-demand path — the on-demand path jx_dom_to_flat
and the tape path jx_dom_to_flat_via_tape return the same success code and
byte-identical token-stream buffers. -/
theorem flatten_paths_agree (u2d : Nat → Nat) (v : JValue)
    (junk src rest : List Nat) (hjunk : AllSkippable junk)
    (h : SrcRepr v src rest ∨ hasBig v = true) :
    jx_dom_to_flat_via_tape u2d v (junk ++ src) = jx_dom_to_flat u2d v :=
  flat_tape_refines u2d v junk src rest hjunk h

/-- Witness for C1 at the concrete document with source bytes
of the form open-brace quote a quote colon bracket 1 comma true
close-bracket close-brace. -/
theorem flatten_paths_agree_witness :
    jx_dom_to_flat_via_tape (fun _ => 0)
      (JValue.jobj [([97], JValue.jarr [JValue.jsint 1 [49], JValue.jbool true])])
      [123, 34, 97, 34, 58, 91, 49, 44, 116, 114, 117, 101, 93, 125] =
    jx_dom_to_flat (fun _ => 0)
      (JValue.jobj [([97], JValue.jarr [JValue.jsint 1 [49], JValue.jbool true])]) := by
  exact flatten_paths_agree (fun _ => 0) _ []
    [123, 34, 97, 34, 58, 91, 49, 44, 116, 114, 117, 101, 93, 125] []
    (by decide)
    (Or.inl
      (SrcRepr.sobj _ _ [] []
        (ObjRepr.cons [97] _ [] []
          [97, 34, 58, 91, 49, 44, 116, 114, 117, 101, 93, 125] [58]
          [91, 49, 44, 116, 114, 117, 101, 93, 125] [125] [125]
          (by decide)
          (StrBody.plain 97 _ _ (by decide) (by decide) (StrBody.close _))
          (by decide)
          (SrcRepr.sarr _ _ [] [125]
            (SeqRepr.cons _ _ [] _ [44, 116, 114, 117, 101, 93, 125] [93, 125]
              (by decide)
              (SrcRepr.sintPos 1 [49] [44, 116, 114, 117, 101, 93, 125]
                (by decide) (by decide) (by decide))
              (SeqRepr.cons _ _ [44] _ [93, 125] [93, 125]
                (by decide)
                (SrcRepr.strue [93, 125])
                (SeqRepr.nil [93, 125])))
            (by decide))
          (ObjRepr.nil [125]))
        (by decide)))

-- ---------------------------------------------------------------------------
-- Token-level view of the flat buffer (the record grammar of spec section 6).
-- The byte-level flattener is proved to be the record-by-record encoding of
-- this token stream; the nesting bound of C4 is stated on the records.
-- ---------------------------------------------------------------------------

inductive Tok where
  | tnull : Tok
  | tbool (b : Bool) : Tok
  | tint (v : Int) : Tok
  | tdbl (bits : Nat) (raw : List Nat) : Tok
  | tstr (s : List Nat) : Tok
  | tastart (n : Nat) : Tok
  | taend : Tok
  | tostart (n : Nat) : Tok
  | toend : Tok

def encode_token : Tok → List Nat
  | .tnull => [TAG_NULL]
  | .tbool b => [TAG_BOOL, if b then 1 else 0]
  | .tint v => TAG_INT :: emit_i64 v
  | .tdbl bits raw => emit_double_with_raw bits raw
  | .tstr s => emit_string s
  | .tastart n => TAG_ARRAY_START :: emit_u32 n
  | .taend => [TAG_ARRAY_END]
  | .tostart n => TAG_OBJECT_START :: emit_u32 n
  | .toend => [TAG_OBJECT_END]

def encode_tokens : List Tok → List Nat
  | [] => []
  | t :: ts => encode_token t ++ encode_tokens ts

mutual

def token_stream (u2d : Nat → Nat) : JValue → Nat → Except Int (List Tok)
  | v, depth =>
    if depth > MAX_DEPTH then .error DEPTH_ERROR
    else
      match v with
      | .jnull => .ok [.tnull]
      | .jbool b => .ok [.tbool b]
      | .jsint n _ => .ok [.tint n]
      | .juint u tok =>
          if u ≤ INT64_MAX then .ok [.tint (Int.ofNat u)]
          else .ok [.tdbl (u2d u) tok]
      | .jdbl bits tok => .ok [.tdbl bits tok]
      | .jbig _ bits tok => .ok [.tdbl bits tok]
      | .jstr s => .ok [.tstr s]
      | .jarr xs =>
          match token_stream_list u2d xs (depth + 1) with
          | .error e => .error e
          | .ok body => .ok (.tastart xs.length :: body ++ [.taend])
      | .jobj fs =>
          match token_stream_fields u2d fs (depth + 1) with
          | .error e => .error e
          | .ok body => .ok (.tostart fs.length :: body ++ [.toend])

def token_stream_list (u2d : Nat → Nat) : List JValue → Nat → Except Int (List Tok)
  | [], _ => .ok []
  | x :: xs, depth =>
    match token_stream u2d x depth with
    | .error e => .error e
    | .ok a =>
        match token_stream_list u2d xs depth with
        | .error e => .error e
        | .ok b => .ok (a ++ b)

def token_stream_fields (u2d : Nat → Nat) : List (List Nat × JValue) → Nat → Except Int (List Tok)
  | [], _ => .ok []
  | (k, v) :: fs, depth =>
    match token_stream u2d v depth with
    | .error e => .error e
    | .ok a =>
        match token_stream_fields u2d fs depth with
        | .error e => .error e
        | .ok b => .ok (.tstr k :: a ++ b)

end

theorem encode_tokens_append : ∀ (a b : List Tok),
    encode_tokens (a ++ b) = encode_tokens a ++ encode_tokens b := by
  intro a
  induction a with
  | nil => intro b; rfl
  | cons t ts ih => intro b; simp [encode_tokens, ih]

/-- The byte-level flatten is the record encoding of the token stream. -/
theorem flatten_encodes_tokens : ∀ n : Nat,
    (∀ (u2d : Nat → Nat) (v : JValue) (d : Nat), sizeOf v ≤ n →
        flatten_ondemand u2d v d = (token_stream u2d v d).map encode_tokens) ∧
    (∀ (u2d : Nat → Nat) (xs : List JValue) (d : Nat), sizeOf xs ≤ n →
        flatten_ondemand_list u2d xs d = (token_stream_list u2d xs d).map encode_tokens) ∧
    (∀ (u2d : Nat → Nat) (fs : List (List Nat × JValue)) (d : Nat), sizeOf fs ≤ n →
        flatten_ondemand_fields u2d fs d = (token_stream_fields u2d fs d).map encode_tokens) := by
  intro n
  induction n using Nat.strong_induction_on with
  | _ n ih =>
  refine ⟨?_, ?_, ?_⟩
  · intro u2d v d hsz
    by_cases hd : d > MAX_DEPTH
    · rw [flatten_ondemand_depth u2d v d hd, token_stream.eq_def]
      simp [hd, except_map_error]
    cases v with
    | jnull =>
        rw [flatten_ondemand.eq_def, token_stream.eq_def]
        simp [hd, except_map_ok, encode_tokens, encode_token]
    | jbool b =>
        rw [flatten_ondemand.eq_def, token_stream.eq_def]
        simp [hd, except_map_ok, encode_tokens, encode_token]
    | jsint nv tok =>
        rw [flatten_ondemand.eq_def, token_stream.eq_def]
        simp [hd, except_map_ok, encode_tokens, encode_token]
    | juint u tok =>
        rw [flatten_ondemand.eq_def, token_stream.eq_def]
        by_cases hu : u ≤ INT64_MAX
        · simp [hd, hu, except_map_ok, encode_tokens, encode_token]
        · simp [hd, hu, except_map_ok, encode_tokens, encode_token]
    | jdbl bits tok =>
        rw [flatten_ondemand.eq_def, token_stream.eq_def]
        simp [hd, except_map_ok, encode_tokens, encode_token]
    | jbig nv bits tok =>
        rw [flatten_ondemand.eq_def, token_stream.eq_def]
        simp [hd, except_map_ok, encode_tokens, encode_token]
    | jstr s =>
        rw [flatten_ondemand.eq_def, token_stream.eq_def]
        simp [hd, except_map_ok, encode_tokens, encode_token]
    | jarr xs =>
        have hxs : sizeOf xs < n := by
          have h0 : sizeOf xs < sizeOf (JValue.jarr xs) := by
            simp only [JValue.jarr.sizeOf_spec]
            omega
          omega
        have hlist := (ih (sizeOf xs) hxs).2.1 u2d xs (d + 1) (le_refl _)
        rw [flatten_ondemand.eq_def, token_stream.eq_def]
        cases hts : token_stream_list u2d xs (d + 1) with
        | error e =>
            rw [hts, except_map_error] at hlist
            simp [hd, hlist, hts, except_map_error]
        | ok body =>
            rw [hts, except_map_ok] at hlist
            simp [hd, hlist, hts, except_map_ok, encode_tokens, encode_token,
                  encode_tokens_append]
    | jobj fs =>
        have hfs : sizeOf fs < n := by
          have h0 : sizeOf fs < sizeOf (JValue.jobj fs) := by
            simp only [JValue.jobj.sizeOf_spec]
            omega
          omega
        have hfields := (ih (sizeOf fs) hfs).2.2 u2d fs (d + 1) (le_refl _)
        rw [flatten_ondemand.eq_def, token_stream.eq_def]
        cases hts : token_stream_fields u2d fs (d + 1) with
        | error e =>
            rw [hts, except_map_error] at hfields
            simp [hd, hfields, hts, except_map_error]
        | ok body =>
            rw [hts, except_map_ok] at hfields
            simp [hd, hfields, hts, except_map_ok, encode_tokens, encode_token,
                  encode_tokens_append]
  · intro u2d xs d hsz
    cases xs with
    | nil =>
        rw [flatten_ondemand_list.eq_def, token_stream_list.eq_def]
        simp [except_map_ok, encode_tokens]
    | cons x rest =>
        have hx : sizeOf x < n := by
          have h0 : sizeOf x < sizeOf (x :: rest) := by
            simp only [List.cons.sizeOf_spec]
            omega
          omega
        have hr : sizeOf rest < n := by
          have h0 : sizeOf rest < sizeOf (x :: rest) := by
            simp only [List.cons.sizeOf_spec]
            omega
          omega
        have h1 := (ih (sizeOf x) hx).1 u2d x d (le_refl _)
        have h2 := (ih (sizeOf rest) hr).2.1 u2d rest d (le_refl _)
        rw [flatten_ondemand_list.eq_def, token_stream_list.eq_def]
        cases hta : token_stream u2d x d with
        | error e =>
            rw [hta, except_map_error] at h1
            simp [h1, hta, except_map_error]
        | ok a =>
            rw [hta, except_map_ok] at h1
            cases htb : token_stream_list u2d rest d with
            | error e =>
                rw [htb, except_map_error] at h2
                simp [h1, hta, h2, htb, except_map_error]
            | ok b =>
                rw [htb, except_map_ok] at h2
                simp [h1, hta, h2, htb, except_map_ok, encode_tokens_append]
  · intro u2d fs d hsz
    cases fs with
    | nil =>
        rw [flatten_ondemand_fields.eq_def, token_stream_fields.eq_def]
        simp [except_map_ok, encode_tokens]
    | cons kv rest =>
        obtain ⟨k, v⟩ := kv
        have hv : sizeOf v < n := by
          have h0 : sizeOf v < sizeOf ((k, v) :: rest) := by
            simp only [List.cons.sizeOf_spec, Prod.mk.sizeOf_spec]
            omega
          omega
        have hr : sizeOf rest < n := by
          have h0 : sizeOf rest < sizeOf ((k, v) :: rest) := by
            simp only [List.cons.sizeOf_spec]
            omega
          omega
        have h1 := (ih (sizeOf v) hv).1 u2d v d (le_refl _)
        have h2 := (ih (sizeOf rest) hr).2.2 u2d rest d (le_refl _)
        rw [flatten_ondemand_fields.eq_def, token_stream_fields.eq_def]
        cases hta : token_stream u2d v d with
        | error e =>
            rw [hta, except_map_error] at h1
            simp [h1, hta, except_map_error]
        | ok a =>
            rw [hta, except_map_ok] at h1
            cases htb : token_stream_fields u2d rest d with
            | error e =>
                rw [htb, except_map_error] at h2
                simp [h1, hta, h2, htb, except_map_error]
            | ok b =>
                rw [htb, except_map_ok] at h2
                simp [h1, hta, h2, htb, except_map_ok, encode_tokens_append,
                      encode_tokens, encode_token]

-- Nesting depth of Start records inside a token stream.  A Start record
-- sits at the depth given by the number of containers still open around it.

def tok_step (cur : Nat) : Tok → Nat
  | .tastart _ => cur + 1
  | .tostart _ => cur + 1
  | .taend => cur - 1
  | .toend => cur - 1
  | _ => cur

def nest_after (cur : Nat) : List Tok → Nat
  | [] => cur
  | t :: ts => nest_after (tok_step cur t) ts

/-- Every ArrayStart/ObjectStart record in the stream sits at a nesting
depth of at most MAX_DEPTH enclosing open containers. -/
def starts_within (cur : Nat) : List Tok → Bool
  | [] => true
  | t :: ts =>
      (match t with
       | .tastart _ => decide (cur ≤ MAX_DEPTH)
       | .tostart _ => decide (cur ≤ MAX_DEPTH)
       | _ => true) && starts_within (tok_step cur t) ts

theorem nest_after_append : ∀ (a b : List Tok) (cur : Nat),
    nest_after cur (a ++ b) = nest_after (nest_after cur a) b := by
  intro a
  induction a with
  | nil => intro b cur; rfl
  | cons t ts ih => intro b cur; simp [nest_after, ih]

theorem starts_within_append : ∀ (a b : List Tok) (cur : Nat),
    starts_within cur (a ++ b) =
      (starts_within cur a && starts_within (nest_after cur a) b) := by
  intro a
  induction a with
  | nil => intro b cur; simp [starts_within, nest_after]
  | cons t ts ih =>
      intro b cur
      simp [starts_within, nest_after, ih, Bool.and_assoc]

theorem token_stream_list_cons (u2d : Nat → Nat) (x : JValue)
    (xs : List JValue) (d : Nat) :
    token_stream_list u2d (x :: xs) d =
      match token_stream u2d x d with
      | .error e => .error e
      | .ok a =>
          match token_stream_list u2d xs d with
          | .error e => .error e
          | .ok b => .ok (a ++ b) := by
  rw [token_stream_list.eq_def]

theorem token_stream_fields_cons (u2d : Nat → Nat) (k : List Nat) (v : JValue)
    (fs : List (List Nat × JValue)) (d : Nat) :
    token_stream_fields u2d ((k, v) :: fs) d =
      match token_stream u2d v d with
      | .error e => .error e
      | .ok a =>
          match token_stream_fields u2d fs d with
          | .error e => .error e
          | .ok b => .ok (.tstr k :: a ++ b) := by
  rw [token_stream_fields.eq_def]

/-- A successful token stream of an element visited at depth d is balanced
(the open-container count returns to d) and every Start record inside it
sits at depth at most MAX_DEPTH. -/
theorem token_stream_nesting_core : ∀ n : Nat,
    (∀ (u2d : Nat → Nat) (v : JValue) (d : Nat) (ts : List Tok), sizeOf v ≤ n →
        token_stream u2d v d = .ok ts →
        nest_after d ts = d ∧ starts_within d ts = true) ∧
    (∀ (u2d : Nat → Nat) (xs : List JValue) (d : Nat) (ts : List Tok), sizeOf xs ≤ n →
        token_stream_list u2d xs d = .ok ts →
        nest_after d ts = d ∧ starts_within d ts = true) ∧
    (∀ (u2d : Nat → Nat) (fs : List (List Nat × JValue)) (d : Nat) (ts : List Tok), sizeOf fs ≤ n →
        token_stream_fields u2d fs d = .ok ts →
        nest_after d ts = d ∧ starts_within d ts = true) := by
  intro n
  induction n using Nat.strong_induction_on with
  | _ n ih =>
  refine ⟨?_, ?_, ?_⟩
  · intro u2d v d ts hsz hok
    by_cases hd : d > MAX_DEPTH
    · rw [token_stream.eq_def] at hok
      simp [hd] at hok
    have hdle : d ≤ MAX_DEPTH := by omega
    cases v with
    | jnull =>
        rw [token_stream.eq_def] at hok
        simp [hd] at hok
        subst hok
        simp [nest_after, starts_within, tok_step]
    | jbool b =>
        rw [token_stream.eq_def] at hok
        simp [hd] at hok
        subst hok
        simp [nest_after, starts_within, tok_step]
    | jsint nv tok =>
        rw [token_stream.eq_def] at hok
        simp [hd] at hok
        subst hok
        simp [nest_after, starts_within, tok_step]
    | juint u tok =>
        rw [token_stream.eq_def] at hok
        simp [hd] at hok
        by_cases hu : u ≤ INT64_MAX
        · simp [hu] at hok
          subst hok
          simp [nest_after, starts_within, tok_step]
        · simp [hu] at hok
          subst hok
          simp [nest_after, starts_within, tok_step]
    | jdbl bits tok =>
        rw [token_stream.eq_def] at hok
        simp [hd] at hok
        subst hok
        simp [nest_after, starts_within, tok_step]
    | jbig nv bits tok =>
        rw [token_stream.eq_def] at hok
        simp [hd] at hok
        subst hok
        simp [nest_after, starts_within, tok_step]
    | jstr s =>
        rw [token_stream.eq_def] at hok
        simp [hd] at hok
        subst hok
        simp [nest_after, starts_within, tok_step]
    | jarr xs =>
        rw [token_stream.eq_def] at hok
        simp [hd] at hok
        cases hts : token_stream_list u2d xs (d + 1) with
        | error e => rw [hts] at hok; simp at hok
        | ok body =>
            rw [hts] at hok
            simp at hok
            subst hok
            have hxs : sizeOf xs < n := by
              have h0 : sizeOf xs < sizeOf (JValue.jarr xs) := by
                simp only [JValue.jarr.sizeOf_spec]
                omega
              omega
            have hb := (ih (sizeOf xs) hxs).2.1 u2d xs (d + 1) body (le_refl _) hts
            constructor
            · simp [nest_after, tok_step, nest_after_append, hb.1]
            · simp [starts_within, tok_step, starts_within_append, hb.1, hb.2,
                    hdle, nest_after, starts_within]
    | jobj fs =>
        rw [token_stream.eq_def] at hok
        simp [hd] at hok
        cases hts : token_stream_fields u2d fs (d + 1) with
        | error e => rw [hts] at hok; simp at hok
        | ok body =>
            rw [hts] at hok
            simp at hok
            subst hok
            have hfs : sizeOf fs < n := by
              have h0 : sizeOf fs < sizeOf (JValue.jobj fs) := by
                simp only [JValue.jobj.sizeOf_spec]
                omega
              omega
            have hb := (ih (sizeOf fs) hfs).2.2 u2d fs (d + 1) body (le_refl _) hts
            constructor
            · simp [nest_after, tok_step, nest_after_append, hb.1]
            · simp [starts_within, tok_step, starts_within_append, hb.1, hb.2,
                    hdle, nest_after, starts_within]
  · intro u2d xs d ts hsz hok
    cases xs with
    | nil =>
        rw [token_stream_list.eq_def] at hok
        simp at hok
        subst hok
        simp [nest_after, starts_within]
    | cons x rest =>
        rw [token_stream_list_cons] at hok
        cases hta : token_stream u2d x d with
        | error e => rw [hta] at hok; simp at hok
        | ok a =>
            rw [hta] at hok
            cases htb : token_stream_list u2d rest d with
            | error e => rw [htb] at hok; simp at hok
            | ok b =>
                rw [htb] at hok
                simp at hok
                subst hok
                have hx : sizeOf x < n := by
                  have h0 : sizeOf x < sizeOf (x :: rest) := by
                    simp only [List.cons.sizeOf_spec]
                    omega
                  omega
                have hr : sizeOf rest < n := by
                  have h0 : sizeOf rest < sizeOf (x :: rest) := by
                    simp only [List.cons.sizeOf_spec]
                    omega
                  omega
                have ha := (ih (sizeOf x) hx).1 u2d x d a (le_refl _) hta
                have hb := (ih (sizeOf rest) hr).2.1 u2d rest d b (le_refl _) htb
                constructor
                · simp [nest_after_append, ha.1, hb.1]
                · simp [starts_within_append, ha.1, ha.2, hb.2]
  · intro u2d fs d ts hsz hok
    cases fs with
    | nil =>
        rw [token_stream_fields.eq_def] at hok
        simp at hok
        subst hok
        simp [nest_after, starts_within]
    | cons kv rest =>
        obtain ⟨k, v⟩ := kv
        rw [token_stream_fields_cons] at hok
        cases hta : token_stream u2d v d with
        | error e => rw [hta] at hok; simp at hok
        | ok a =>
            rw [hta] at hok
            cases htb : token_stream_fields u2d rest d with
            | error e => rw [htb] at hok; simp at hok
            | ok b =>
                rw [htb] at hok
                simp at hok
                subst hok
                have hv : sizeOf v < n := by
                  have h0 : sizeOf v < sizeOf ((k, v) :: rest) := by
                    simp only [List.cons.sizeOf_spec, Prod.mk.sizeOf_spec]
                    omega
                  omega
                have hr : sizeOf rest < n := by
                  have h0 : sizeOf rest < sizeOf ((k, v) :: rest) := by
                    simp only [List.cons.sizeOf_spec]
                    omega
                  omega
                have ha := (ih (sizeOf v) hv).1 u2d v d a (le_refl _) hta
                have hb := (ih (sizeOf rest) hr).2.2 u2d rest d b (le_refl _) htb
                constructor
                · simp [nest_after, tok_step, nest_after_append, ha.1, hb.1]
                · simp [starts_within, tok_step, starts_within_append, ha.1,
                        ha.2, hb.2]

/-- Helper: a successful flatten is the encoding of a token stream whose
Start records stay within the depth bound. -/
theorem to_flat_ok_tokens (u2d : Nat → Nat) (v : JValue) (out : List Nat)
    (hout : jx_dom_to_flat u2d v = .ok out) :
    ∃ ts, token_stream u2d v 0 = .ok ts ∧ out = encode_tokens ts ∧
      starts_within 0 ts = true := by
  by_cases hdep : containerDepth v > MAX_DEPTH
  · rw [jx_dom_to_flat.eq_def] at hout
    simp [hdep] at hout
  rw [jx_dom_to_flat_eq_flatten u2d v hdep] at hout
  have henc := (flatten_encodes_tokens (sizeOf v)).1 u2d v 0 (le_refl _)
  cases hts : token_stream u2d v 0 with
  | error e =>
      rw [hts, except_map_error] at henc
      rw [henc] at hout
      exact absurd hout (by simp)
  | ok ts =>
      rw [hts, except_map_ok] at henc
      rw [henc] at hout
      have hn := (token_stream_nesting_core (sizeOf v)).1 u2d v 0 ts
        (le_refl _) hts
      refine ⟨ts, rfl, ?_, hn.2⟩
      have := hout
      simp at this
      exact this.symm

/-- C4: inputs nested deeper than the 1024 limit make both flatten entry
points return DEPTH_ERROR with no output buffer; and whenever flatten
succeeds (either path), the produced token stream never holds an
ArrayStart/ObjectStart record at a nesting depth above 1024. -/
theorem depth_limit_properties (u2d : Nat → Nat) (v : JValue) :
    (containerDepth v > MAX_DEPTH →
      jx_dom_to_flat u2d v = .error DEPTH_ERROR ∧
      ∀ src, jx_dom_to_flat_via_tape u2d v src = .error DEPTH_ERROR) ∧
    (∀ out, jx_dom_to_flat u2d v = .ok out →
      ∃ ts, token_stream u2d v 0 = .ok ts ∧ out = encode_tokens ts ∧
        starts_within 0 ts = true) ∧
    (∀ junk src rest out, AllSkippable junk →
      (SrcRepr v src rest ∨ hasBig v = true) →
      jx_dom_to_flat_via_tape u2d v (junk ++ src) = .ok out →
      ∃ ts, token_stream u2d v 0 = .ok ts ∧ out = encode_tokens ts ∧
        starts_within 0 ts = true) := by
  refine ⟨?_, ?_, ?_⟩
  · intro hdep
    constructor
    · rw [jx_dom_to_flat.eq_def]
      simp [hdep]
    · intro src
      rw [jx_dom_to_flat_via_tape]
      simp [hdep]
  · intro out hout
    exact to_flat_ok_tokens u2d v out hout
  · intro junk src rest out hjunk hsrc hout
    rw [flat_tape_refines u2d v junk src rest hjunk hsrc] at hout
    exact to_flat_ok_tokens u2d v out hout

/-- A deeply nested all-array document, used to witness the depth error. -/
def nestedArr : Nat → JValue
  | 0 => .jnull
  | n + 1 => .jarr [nestedArr n]

theorem nestedArr_depth : ∀ n, containerDepth (nestedArr n) = n
  | 0 => by rw [nestedArr]; rfl
  | n + 1 => by
      rw [nestedArr, containerDepth]
      rw [depthList, nestedArr_depth n]
      simp [depthList]
      omega

/-- Witness for C4: a 1025-deep document fails with DEPTH_ERROR on the
on-demand path; the flat array document and a null document succeed on
their respective paths with depth-bounded streams. -/
theorem depth_limit_properties_witness :
    jx_dom_to_flat (fun _ => 0) (nestedArr 1025) = .error DEPTH_ERROR ∧
    jx_dom_to_flat_via_tape (fun _ => 0) (nestedArr 1025) [] = .error DEPTH_ERROR ∧
    (∃ ts, token_stream (fun _ => 0) (.jarr []) 0 = .ok ts ∧
      [TAG_ARRAY_START, 0, 0, 0, 0, TAG_ARRAY_END] = encode_tokens ts ∧
      starts_within 0 ts = true) ∧
    (∃ ts, token_stream (fun _ => 0) .jnull 0 = .ok ts ∧
      [TAG_NULL] = encode_tokens ts ∧ starts_within 0 ts = true) := by
  have hdeep : containerDepth (nestedArr 1025) > MAX_DEPTH := by
    rw [nestedArr_depth]
    decide
  refine ⟨?_, ?_, ?_, ?_⟩
  · exact ((depth_limit_properties (fun _ => 0) (nestedArr 1025)).1 hdeep).1
  · exact ((depth_limit_properties (fun _ => 0) (nestedArr 1025)).1 hdeep).2 []
  · refine (depth_limit_properties (fun _ => 0) (.jarr [])).2.1
      [TAG_ARRAY_START, 0, 0, 0, 0, TAG_ARRAY_END] ?_
    simp [jx_dom_to_flat, flatten_ondemand, flatten_ondemand_list,
          containerDepth, depthList, MAX_DEPTH, emit_u32, TAG_ARRAY_START,
          TAG_ARRAY_END]
  · refine (depth_limit_properties (fun _ => 0) .jnull).2.2 []
      [110, 117, 108, 108] [] [TAG_NULL] (by decide)
      (Or.inl (SrcRepr.snull [])) ?_
    simp [jx_dom_to_flat_via_tape, walk_element, containerDepth, hasBig,
          MAX_DEPTH, advance_cursor, is_skippable, TAG_NULL]

-- ---------------------------------------------------------------------------
-- Number emission properties (C2, C3).
-- ---------------------------------------------------------------------------

theorem take_takeWhile_length {p : Nat → Bool} (l : List Nat) :
    l.take (l.takeWhile p).length = l.takeWhile p := by
  induction l with
  | nil => rfl
  | cons c t ih =>
      by_cases h : p c = true
      · simp [List.takeWhile, h, List.take_succ_cons, ih]
      · simp at h
        simp [List.takeWhile, h]

/-- C2: a non-integer numeric literal (floating-point classification) is
emitted as a Double record whose raw-text payload is the source token
trimmed to the longest prefix of characters in the number-character class;
in particular the single-number document with source bytes 75.80 flattens
to the records Double, the parser f64 bit pattern, u32 length 5, and the
five raw bytes of 75.80. -/
theorem double_raw_trimming (u2d : Nat → Nat) (bits : Nat) (tok : List Nat)
    (d : Nat) (hd : d ≤ MAX_DEPTH) :
    flatten_ondemand u2d (.jdbl bits tok) d =
      .ok (TAG_DOUBLE :: emit_f64 bits ++
           emit_u32 (tok.takeWhile is_number_char).length ++
           tok.takeWhile is_number_char) ∧
    jx_dom_to_flat u2d (.jdbl bits [55, 53, 46, 56, 48]) =
      .ok (TAG_DOUBLE :: emit_f64 bits ++ [5, 0, 0, 0] ++
           [55, 53, 46, 56, 48]) := by
  constructor
  · have hd2 : ¬ d > MAX_DEPTH := by omega
    rw [flatten_ondemand.eq_def]
    simp [hd2, emit_double_with_raw, trim_number_len_eq_takeWhile,
          take_trim_number_len, take_takeWhile_length]
  · rw [jx_dom_to_flat]
    simp [containerDepth, MAX_DEPTH, emit_double_with_raw,
          trim_number_len, is_number_char, emit_u32]

/-- Witness for C2 at token 75.80 with an arbitrary fixed bit pattern. -/
theorem double_raw_trimming_witness :
    flatten_ondemand (fun _ => 0) (.jdbl 7 [55, 53, 46, 56, 48]) 0 =
      .ok (TAG_DOUBLE :: emit_f64 7 ++
           emit_u32 ([55, 53, 46, 56, 48].takeWhile is_number_char).length ++
           [55, 53, 46, 56, 48].takeWhile is_number_char) ∧
    jx_dom_to_flat (fun _ => 0) (.jdbl 7 [55, 53, 46, 56, 48]) =
      .ok (TAG_DOUBLE :: emit_f64 7 ++ [5, 0, 0, 0] ++
           [55, 53, 46, 56, 48]) :=
  double_raw_trimming (fun _ => 0) 7 [55, 53, 46, 56, 48] 0 (by decide)

/-- Modelled from the spec (section 3, number classification): the parser
classifies a number as signed integer only when it fits int64, as unsigned
integer only when it is above the signed range and fits uint64, and as big
integer only when it fits neither; number tokens are non-empty strings of
number characters. -/
def NumWF : JValue → Prop
  | .jsint n tok => -(2 ^ 63) ≤ n ∧ n < 2 ^ 63 ∧ tok ≠ [] ∧ AllNumberChars tok
  | .juint u tok => 2 ^ 63 ≤ u ∧ u < 2 ^ 64 ∧ tok ≠ [] ∧ AllNumberChars tok
  | .jbig n _ tok => (n < -(2 ^ 63) ∨ 2 ^ 64 ≤ n) ∧ tok ≠ [] ∧ AllNumberChars tok
  | .jdbl _ tok => tok ≠ [] ∧ AllNumberChars tok
  | _ => True

/-- The mathematical value of an integer-classified literal. -/
def intLitValue : JValue → Option Int
  | .jsint n _ => some n
  | .juint u _ => some (Int.ofNat u)
  | .jbig n _ _ => some n
  | _ => none

/-- C3: an integer literal with value n emits an Int record (tag 2, i64)
exactly when n lies in the signed 64-bit range; any integer outside that
range (unsigned integers in the upper half and big integers) emits a
Double record with non-empty raw source text. -/
theorem int_literal_emission (u2d : Nat → Nat) (w : JValue) (n : Int) (d : Nat)
    (hwf : NumWF w) (hv : intLitValue w = some n) (hd : d ≤ MAX_DEPTH) :
    (-(2 ^ 63) ≤ n ∧ n < 2 ^ 63 →
      flatten_ondemand u2d w d = .ok (TAG_INT :: emit_i64 n)) ∧
    ((n < -(2 ^ 63) ∨ 2 ^ 63 ≤ n) →
      ∃ bits raw, raw ≠ [] ∧
        flatten_ondemand u2d w d =
          .ok (TAG_DOUBLE :: emit_f64 bits ++ emit_u32 raw.length ++ raw)) := by
  have hd2 : ¬ d > MAX_DEPTH := by omega
  cases w with
  | jsint m tok =>
      simp [intLitValue] at hv
      subst hv
      simp [NumWF] at hwf
      constructor
      · intro _
        rw [flatten_ondemand.eq_def]
        simp [hd2]
      · intro hout
        exact absurd hout (by omega)
  | juint u tok =>
      simp [intLitValue] at hv
      simp [NumWF] at hwf
      have hgt : ¬ u ≤ INT64_MAX := by
        simp [INT64_MAX]
        omega
      constructor
      · intro hin
        rw [← hv] at hin
        exact absurd hin (by omega)
      · intro _
        refine ⟨u2d u, tok, hwf.2.2.1, ?_⟩
        rw [flatten_ondemand.eq_def]
        simp [hd2, hgt, emit_double_with_raw_all (u2d u) tok hwf.2.2.2]
  | jbig m bits tok =>
      simp [intLitValue] at hv
      subst hv
      simp [NumWF] at hwf
      constructor
      · intro hin
        rcases hwf.1 with h | h
        · exact absurd hin (by omega)
        · exact absurd hin (by omega)
      · intro _
        refine ⟨bits, tok, hwf.2.1, ?_⟩
        rw [flatten_ondemand.eq_def]
        simp [hd2, emit_double_with_raw_all bits tok hwf.2.2]
  | jnull => simp [intLitValue] at hv
  | jbool b => simp [intLitValue] at hv
  | jdbl bits tok => simp [intLitValue] at hv
  | jstr s => simp [intLitValue] at hv
  | jarr xs => simp [intLitValue] at hv
  | jobj fs => simp [intLitValue] at hv

/-- Witness for C3: the literal 5 is emitted as an Int record, and the
unsigned literal 2^63 is emitted as a Double record with non-empty raw. -/
theorem int_literal_emission_witness :
    flatten_ondemand (fun _ => 0) (.jsint 5 [53]) 0 =
      .ok (TAG_INT :: emit_i64 5) ∧
    (∃ bits raw, raw ≠ [] ∧
      flatten_ondemand (fun _ => 0)
        (.juint (2 ^ 63) [57, 50, 50, 51, 51, 55, 50, 48, 51, 54, 56, 53, 52, 55, 55, 53, 56, 48, 56]) 0 =
        .ok (TAG_DOUBLE :: emit_f64 bits ++ emit_u32 raw.length ++ raw)) := by
  constructor
  · exact (int_literal_emission (fun _ => 0) (.jsint 5 [53]) 5 0
      (by constructor
          · norm_num
          · exact ⟨by norm_num, by simp, by decide⟩)
      (by simp [intLitValue]) (by decide)).1 (by norm_num)
  · exact (int_literal_emission (fun _ => 0)
      (.juint (2 ^ 63) [57, 50, 50, 51, 51, 55, 50, 48, 51, 54, 56, 53, 52, 55, 55, 53, 56, 48, 56])
      (Int.ofNat (2 ^ 63)) 0
      (by refine ⟨by norm_num, by norm_num, by simp, by decide⟩)
      (by simp [intLitValue]) (by decide)).2 (by norm_num)

-- ---------------------------------------------------------------------------
-- Fast-path query operators (bridge.cpp 653-1478).  All of them parse the
-- document first; we model the parsed document as the JValue and assume the
-- parse succeeded (the claims below are about valid inputs).  The DOM
-- serializer simdjson::to_string and the raw slice raw_json of the
-- on-demand parser are library facilities modelled as oracles passed in.
-- ---------------------------------------------------------------------------

/-- First field with the given key (dom at_key / on-demand find_field). -/
def findField (fs : List (List Nat × JValue)) (k : List Nat) : Option JValue :=
  match fs with
  | [] => none
  | (k2, v) :: rest => if k2 = k then some v else findField rest k

/-- navigate_fields (bridge.cpp 660-675): walk the chain from the root;
require an object at every step and descend into the key.  none models the
soft miss (return 1); the parse-error outcome (return 2) cannot arise for a
valid, already-parsed document. -/
def navigate_fields (v : JValue) (chain : List (List Nat)) : Option JValue :=
  match chain with
  | [] => some v
  | k :: ks =>
      match v with
      | .jobj fs =>
          match findField fs k with
          | some w => navigate_fields w ks
          | none => none
      | _ => none

/-- Loop of navigate_fields_raw over fields 1..count-1 (bridge.cpp 725-732):
get_object fails on a non-object, find_field fails on a missing key. -/
def navigate_fields_raw_rest (v : JValue) (ks : List (List Nat)) : Option JValue :=
  match ks with
  | [] => some v
  | k :: rest =>
      match v with
      | .jobj fs =>
          match findField fs k with
          | some w => navigate_fields_raw_rest w rest
          | none => none
      | _ => none

/-- navigate_fields_raw (bridge.cpp 705-737): reads fields[0] before ever
checking the chain length, so the empty chain is outside the defined
interface — modelled as the outer none.  The inner option is the navigation
result: none is the soft miss (return 1). -/
def navigate_fields_raw (v : JValue) (chain : List (List Nat)) :
    Option (Option JValue) :=
  match chain with
  | [] => none
  | k :: ks =>
      match v with
      | .jobj fs =>
          match findField fs k with
          | some w => some (navigate_fields_raw_rest w ks)
          | none => some none
      | _ => some none

/-- trim_raw_json (bridge.cpp 740-745): drop trailing whitespace and commas
from a raw slice. -/
def is_raw_trim_byte (c : Nat) : Bool :=
  c == 32 || c == 10 || c == 13 || c == 9 || c == 44

def trim_raw_json (raw : List Nat) : List Nat :=
  (raw.reverse.dropWhile is_raw_trim_byte).reverse

/-- jx_dom_find_field_raw (bridge.cpp 747-769).  R is the raw_json oracle:
the raw source slice of the addressed subtree.  The outer none models the
undefined behaviour on an empty chain (C9). -/
def jx_dom_find_field_raw (R : JValue → List Nat) (v : JValue)
    (chain : List (List Nat)) : Option (Except Int (List Nat)) :=
  match navigate_fields_raw v chain with
  | none => none
  | some none => some (.ok [110, 117, 108, 108])
  | some (some w) => some (.ok (trim_raw_json (R w)))

/-- jx_dom_find_field_raw_reuse (bridge.cpp 975-998): same routine on a
caller-owned reusable parser handle. -/
def jx_dom_find_field_raw_reuse (R : JValue → List Nat) (v : JValue)
    (chain : List (List Nat)) : Option (Except Int (List Nat)) :=
  match navigate_fields_raw v chain with
  | none => none
  | some none => some (.ok [110, 117, 108, 108])
  | some (some w) => some (.ok (trim_raw_json (R w)))

/-- Packing loop of jx_dom_find_fields_raw_reuse (bridge.cpp 1000-1032):
each chain is navigated with navigate_fields_raw and the result (or the
four bytes null) is packed as u32 length plus bytes. -/
def pack_chains_raw (R : JValue → List Nat) (v : JValue) :
    List (List (List Nat)) → Option (List Nat)
  | [] => some []
  | c :: cs =>
      match navigate_fields_raw v c with
      | none => none
      | some r =>
          let val := match r with
            | some w => trim_raw_json (R w)
            | none => [110, 117, 108, 108]
          match pack_chains_raw R v cs with
          | none => none
          | some b => some (emit_u32 val.length ++ val ++ b)

def jx_dom_find_fields_raw_reuse (R : JValue → List Nat) (v : JValue)
    (chains : List (List (List Nat))) : Option (Except Int (List Nat)) :=
  match pack_chains_raw R v chains with
  | none => none
  | some packed => some (.ok packed)

/-- Decimal ASCII rendering of a count (std::to_string). -/
def asciiDecimal (n : Nat) : List Nat :=
  (Nat.toDigits 10 n).map Char.toNat

/-- jx_dom_field_length (bridge.cpp 780-825).  The soft sentinel (out_len
set to -2 with a null buffer) is modelled as the error value SOFT_MISS. -/
def jx_dom_field_length (v : JValue) (chain : List (List Nat)) :
    Except Int (List Nat) :=
  match navigate_fields v chain with
  | none => .ok [48]
  | some w =>
      match w with
      | .jarr xs => .ok (asciiDecimal xs.length)
      | .jobj fs => .ok (asciiDecimal fs.length)
      | .jstr s => .ok (asciiDecimal s.length)
      | .jnull => .ok (asciiDecimal 0)
      | _ => .error SOFT_MISS

/-- jx_dom_field_length_reuse (bridge.cpp 1034-1078): the reusable-parser
variant returns the soft sentinel -2 on a soft miss and for every node that
is not an object or array (strings included); object and array sizes are
counted by iterating the container. -/
def jx_dom_field_length_reuse (v : JValue) (chain : List (List Nat)) :
    Except Int (List Nat) :=
  match navigate_fields v chain with
  | none => .error SOFT_MISS
  | some w =>
      match w with
      | .jobj fs => .ok (asciiDecimal fs.length)
      | .jarr xs => .ok (asciiDecimal xs.length)
      | _ => .error SOFT_MISS

/-- Element loop of jx_dom_array_map_field (bridge.cpp 1169-1199): a null
element emits the four bytes null; an object element emits the serialized
subtree of the secondary chain, or null on a miss; any other element aborts
the whole call with the soft sentinel (modelled as none).  The separator
(comma under wrap_array, newline otherwise) precedes every element except
the first. -/
def map_field_loop (ser : JValue → List Nat) (chain : List (List Nat))
    (wrap : Bool) : List JValue → Bool → Option (List Nat)
  | [], _ => some []
  | e :: rest, first =>
      let sep : List Nat := if first then [] else if wrap then [44] else [10]
      match e with
      | .jnull =>
          match map_field_loop ser chain wrap rest false with
          | none => none
          | some b => some (sep ++ [110, 117, 108, 108] ++ b)
      | .jobj fs =>
          let piece :=
            match navigate_fields (.jobj fs) chain with
            | some w => ser w
            | none => [110, 117, 108, 108]
          match map_field_loop ser chain wrap rest false with
          | none => none
          | some b => some (sep ++ piece ++ b)
      | _ => none

/-- jx_dom_array_map_field (bridge.cpp 1142-1208): navigate the prefix
chain to an array (soft miss or wrong type returns -2 with no output), then
map the secondary chain over the elements.  ser is the simdjson to_string
serializer oracle. -/
def jx_dom_array_map_field (ser : JValue → List Nat) (v : JValue)
    (pre chain : List (List Nat)) (wrap : Bool) : Except Int (List Nat) :=
  match navigate_fields v pre with
  | none => .error SOFT_MISS
  | some t =>
      match t with
      | .jarr xs =>
          match map_field_loop ser chain wrap xs true with
          | none => .error SOFT_MISS
          | some body =>
              .ok (if wrap then 91 :: body ++ [93] else body)
      | _ => .error SOFT_MISS

/-- Modelled from the spec: iterate_many yields a stream of per-document
parse results over an NDJSON buffer; the stream construction itself
succeeds for every buffer.  jx_iterate_many_count (bridge.cpp 127-152)
walks the stream, skips every document whose result carries an error, and
counts the rest. -/
def jx_iterate_many_count_loop (docs : List (Except Int JValue)) (acc : Nat) : Nat :=
  match docs with
  | [] => acc
  | r :: rest =>
      match r with
      | .error _ => jx_iterate_many_count_loop rest acc
      | .ok _ => jx_iterate_many_count_loop rest (acc + 1)

def jx_iterate_many_count (docs : List (Except Int JValue)) : Except Int Nat :=
  .ok (jx_iterate_many_count_loop docs 0)

-- ---------------------------------------------------------------------------
-- Spec-side navigation definition, for the refinement statements of C6/C8.
-- ---------------------------------------------------------------------------

/-- Modelled from the spec words (section 4.4, common navigation semantics):
starting from the root, each chain element requires the current node to be
an object and descends into the named key; any step hitting a non-object or
a missing key soft-misses. -/
def spec_chain_navigate (v : JValue) : List (List Nat) → Option JValue
  | [] => some v
  | k :: ks =>
      match v with
      | .jobj fs =>
          match findField fs k with
          | some w => spec_chain_navigate w ks
          | none => none
      | _ => none

theorem navigate_fields_raw_rest_eq_spec (v : JValue) (ks : List (List Nat)) :
    navigate_fields_raw_rest v ks = spec_chain_navigate v ks := by
  induction ks generalizing v with
  | nil => rfl
  | cons k rest ih =>
      cases v with
      | jobj fs =>
          rw [navigate_fields_raw_rest, spec_chain_navigate]
          cases findField fs k with
          | none => rfl
          | some w => exact ih w
      | jnull => rfl
      | jbool b => rfl
      | jsint n tok => rfl
      | juint u tok => rfl
      | jdbl bits tok => rfl
      | jbig n bits tok => rfl
      | jstr s => rfl
      | jarr xs => rfl

theorem navigate_fields_raw_eq_spec (v : JValue) (chain : List (List Nat))
    (h : chain ≠ []) :
    navigate_fields_raw v chain = some (spec_chain_navigate v chain) := by
  cases chain with
  | nil => exact absurd rfl h
  | cons k ks =>
      cases v with
      | jobj fs =>
          rw [navigate_fields_raw, spec_chain_navigate]
          cases findField fs k with
          | none => rfl
          | some w => simp [navigate_fields_raw_rest_eq_spec]
      | jnull => rfl
      | jbool b => rfl
      | jsint n tok => rfl
      | juint u tok => rfl
      | jdbl bits tok => rfl
      | jbig n bits tok => rfl
      | jstr s => rfl
      | jarr xs => rfl

theorem navigate_fields_eq_spec (v : JValue) (chain : List (List Nat)) :
    navigate_fields v chain = spec_chain_navigate v chain := by
  induction chain generalizing v with
  | nil => rfl
  | cons k rest ih =>
      cases v with
      | jobj fs =>
          rw [navigate_fields, spec_chain_navigate]
          cases findField fs k with
          | none => rfl
          | some w => exact ih w
      | jnull => rfl
      | jbool b => rfl
      | jsint n tok => rfl
      | juint u tok => rfl
      | jdbl bits tok => rfl
      | jbig n bits tok => rfl
      | jstr s => rfl
      | jarr xs => rfl

-- ---------------------------------------------------------------------------
-- C5: NDJSON document counting.
-- ---------------------------------------------------------------------------

def isOkDoc : Except Int JValue → Bool
  | .ok _ => true
  | .error _ => false

theorem count_loop_adds (docs : List (Except Int JValue)) : ∀ acc : Nat,
    jx_iterate_many_count_loop docs acc = acc + (docs.filter isOkDoc).length := by
  induction docs with
  | nil => intro acc; simp [jx_iterate_many_count_loop]
  | cons r rest ih =>
      intro acc
      cases r with
      | error e => simp [jx_iterate_many_count_loop, List.filter, isOkDoc, ih]
      | ok w =>
          simp [jx_iterate_many_count_loop, List.filter, isOkDoc, ih]
          omega

/-- C5: for every NDJSON stream of per-document parse results, the count
succeeds and returns the number of successfully-parsed documents, with
erroneous documents silently skipped; in particular three valid documents
plus one malformed one count as 3. -/
theorem iterate_many_count_skips_errors (docs : List (Except Int JValue)) :
    jx_iterate_many_count docs = .ok ((docs.filter isOkDoc).length) ∧
    jx_iterate_many_count
      [.ok .jnull, .ok (.jbool true), .ok (.jarr []), .error (-1)] = .ok 3 := by
  constructor
  · rw [jx_iterate_many_count, count_loop_adds]
    simp
  · rfl

-- ---------------------------------------------------------------------------
-- C6: find-field-raw semantics.
-- ---------------------------------------------------------------------------

/-- C6: on a non-empty chain, find-field-raw returns exactly the four bytes
of the null literal when the chain soft-misses (a step hits a non-object or
a missing key, per the spec navigation semantics), and otherwise the raw
JSON slice of the addressed subtree with trailing whitespace and commas
trimmed. -/
theorem find_field_raw_semantics (R : JValue → List Nat) (v : JValue)
    (chain : List (List Nat)) (h : chain ≠ []) :
    jx_dom_find_field_raw R v chain =
      some (.ok (match spec_chain_navigate v chain with
                 | none => [110, 117, 108, 108]
                 | some w => trim_raw_json (R w))) := by
  rw [jx_dom_find_field_raw, navigate_fields_raw_eq_spec v chain h]
  cases spec_chain_navigate v chain with
  | none => rfl
  | some w => rfl

/-- Witness for C6: a soft miss on a non-object root yields the null bytes,
and a hit returns the trimmed raw slice. -/
theorem find_field_raw_semantics_witness :
    jx_dom_find_field_raw (fun _ => [52, 50, 32]) .jnull [[97]] =
      some (.ok [110, 117, 108, 108]) ∧
    jx_dom_find_field_raw (fun _ => [52, 50, 32])
      (.jobj [([97], .jsint 42 [52, 50])]) [[97]] =
      some (.ok [52, 50]) := by
  constructor
  · exact find_field_raw_semantics (fun _ => [52, 50, 32]) .jnull [[97]]
      (by simp)
  · exact find_field_raw_semantics (fun _ => [52, 50, 32])
      (.jobj [([97], .jsint 42 [52, 50])]) [[97]] (by simp)

-- ---------------------------------------------------------------------------
-- C7/C10: field-length semantics.
-- ---------------------------------------------------------------------------

def isOtherScalar : JValue → Bool
  | .jbool _ => true
  | .jsint _ _ => true
  | .juint _ _ => true
  | .jdbl _ _ => true
  | .jbig _ _ _ => true
  | _ => false

/-- C7: field-length returns the decimal key count for objects, element
count for arrays, unescaped byte length for strings, 0 for null, the soft
sentinel for any other scalar, and the single byte 0 when the chain
soft-misses. -/
theorem field_length_semantics (v : JValue) (chain : List (List Nat)) :
    (navigate_fields v chain = none →
        jx_dom_field_length v chain = .ok [48]) ∧
    (∀ fs, navigate_fields v chain = some (.jobj fs) →
        jx_dom_field_length v chain = .ok (asciiDecimal fs.length)) ∧
    (∀ xs, navigate_fields v chain = some (.jarr xs) →
        jx_dom_field_length v chain = .ok (asciiDecimal xs.length)) ∧
    (∀ s, navigate_fields v chain = some (.jstr s) →
        jx_dom_field_length v chain = .ok (asciiDecimal s.length)) ∧
    (navigate_fields v chain = some .jnull →
        jx_dom_field_length v chain = .ok [48]) ∧
    (∀ w, navigate_fields v chain = some w → isOtherScalar w = true →
        jx_dom_field_length v chain = .error SOFT_MISS) := by
  refine ⟨?_, ?_, ?_, ?_, ?_, ?_⟩
  · intro h
    rw [jx_dom_field_length, h]
  · intro fs h
    rw [jx_dom_field_length, h]
  · intro xs h
    rw [jx_dom_field_length, h]
  · intro s h
    rw [jx_dom_field_length, h]
  · intro h
    rw [jx_dom_field_length, h]
    rfl
  · intro w h hw
    rw [jx_dom_field_length, h]
    cases w with
    | jbool b => rfl
    | jsint n tok => rfl
    | juint u tok => rfl
    | jdbl bits tok => rfl
    | jbig n bits tok => rfl
    | jnull => simp [isOtherScalar] at hw
    | jstr s => simp [isOtherScalar] at hw
    | jarr xs => simp [isOtherScalar] at hw
    | jobj fs => simp [isOtherScalar] at hw

/-- Witness for C7: a missing key yields the byte 0; a string field yields
its decimal byte length. -/
theorem field_length_semantics_witness :
    jx_dom_field_length (.jobj [([97], .jsint 1 [49])]) [[122]] = .ok [48] ∧
    jx_dom_field_length (.jobj [([97], .jstr [104, 105])]) [[97]] =
      .ok (asciiDecimal 2) := by
  constructor
  · exact (field_length_semantics (.jobj [([97], .jsint 1 [49])]) [[122]]).1 rfl
  · exact (field_length_semantics (.jobj [([97], .jstr [104, 105])]) [[97]]).2.2.2.1
      [104, 105] rfl

def isObjOrArr : JValue → Bool
  | .jobj _ => true
  | .jarr _ => true
  | _ => false

/-- C10: the reusable-parser length variant returns the soft sentinel on a
soft miss and on every node that is not an object or an array (strings,
numbers, booleans and null included), and a decimal count only for objects
and arrays. -/
theorem field_length_reuse_semantics (v : JValue) (chain : List (List Nat)) :
    (navigate_fields v chain = none →
        jx_dom_field_length_reuse v chain = .error SOFT_MISS) ∧
    (∀ w, navigate_fields v chain = some w → isObjOrArr w = false →
        jx_dom_field_length_reuse v chain = .error SOFT_MISS) ∧
    (∀ fs, navigate_fields v chain = some (.jobj fs) →
        jx_dom_field_length_reuse v chain = .ok (asciiDecimal fs.length)) ∧
    (∀ xs, navigate_fields v chain = some (.jarr xs) →
        jx_dom_field_length_reuse v chain = .ok (asciiDecimal xs.length)) := by
  refine ⟨?_, ?_, ?_, ?_⟩
  · intro h
    rw [jx_dom_field_length_reuse, h]
  · intro w h hw
    rw [jx_dom_field_length_reuse, h]
    cases w with
    | jnull => rfl
    | jbool b => rfl
    | jsint n tok => rfl
    | juint u tok => rfl
    | jdbl bits tok => rfl
    | jbig n bits tok => rfl
    | jstr s => rfl
    | jarr xs => simp [isObjOrArr] at hw
    | jobj fs => simp [isObjOrArr] at hw
  · intro fs h
    rw [jx_dom_field_length_reuse, h]
  · intro xs h
    rw [jx_dom_field_length_reuse, h]

/-- Witness for C10: a soft miss and a string node both give the soft
sentinel; an object gives its pair count. -/
theorem field_length_reuse_semantics_witness :
    jx_dom_field_length_reuse (.jobj [([97], .jsint 1 [49])]) [[122]] =
      .error SOFT_MISS ∧
    jx_dom_field_length_reuse (.jobj [([97], .jstr [104, 105])]) [[97]] =
      .error SOFT_MISS ∧
    jx_dom_field_length_reuse (.jobj [([97], .jsint 1 [49])]) [] =
      .ok (asciiDecimal 1) := by
  refine ⟨?_, ?_, ?_⟩
  · exact (field_length_reuse_semantics (.jobj [([97], .jsint 1 [49])]) [[122]]).1 rfl
  · exact (field_length_reuse_semantics (.jobj [([97], .jstr [104, 105])]) [[97]]).2.1
      (.jstr [104, 105]) rfl rfl
  · exact (field_length_reuse_semantics (.jobj [([97], .jsint 1 [49])]) []).2.2.1
      [([97], .jsint 1 [49])] rfl

-- ---------------------------------------------------------------------------
-- C9: the raw find-field entry points require a non-empty chain.
-- ---------------------------------------------------------------------------

/-- C9: navigate_fields_raw reads fields[0] before checking the chain
length, so every raw entry point is undefined (modelled as none) on a
zero-length chain, and defined on every non-empty chain; the batch variant
is undefined as soon as one of its chains is empty. -/
theorem raw_chain_nonempty_required (R : JValue → List Nat) (v : JValue) :
    jx_dom_find_field_raw R v [] = none ∧
    jx_dom_find_field_raw_reuse R v [] = none ∧
    (∀ cs1 cs2, (∀ c ∈ cs1, c ≠ []) →
        jx_dom_find_fields_raw_reuse R v (cs1 ++ [] :: cs2) = none) ∧
    (∀ chain, chain ≠ [] →
        (jx_dom_find_field_raw R v chain).isSome = true ∧
        (jx_dom_find_field_raw_reuse R v chain).isSome = true) := by
  refine ⟨rfl, rfl, ?_, ?_⟩
  · intro cs1
    induction cs1 with
    | nil =>
        intro cs2 _
        rfl
    | cons c cs ih =>
        intro cs2 hne
        have hc : c ≠ [] := hne c (by simp)
        have hrest := ih cs2 (fun d hd => hne d (by simp [hd]))
        rw [jx_dom_find_fields_raw_reuse] at hrest ⊢
        rw [List.cons_append, pack_chains_raw]
        rw [navigate_fields_raw_eq_spec v c hc]
        cases hpack : pack_chains_raw R v (cs ++ [] :: cs2) with
        | none => simp
        | some packed => rw [hpack] at hrest; simp at hrest
  · intro chain hne
    constructor
    · rw [jx_dom_find_field_raw, navigate_fields_raw_eq_spec v chain hne]
      cases spec_chain_navigate v chain with
      | none => rfl
      | some w => rfl
    · rw [jx_dom_find_field_raw_reuse, navigate_fields_raw_eq_spec v chain hne]
      cases spec_chain_navigate v chain with
      | none => rfl
      | some w => rfl

/-- Witness for C9: undefined on the empty chain, and on a batch whose
second chain is empty; defined on a singleton chain. -/
theorem raw_chain_nonempty_required_witness :
    jx_dom_find_field_raw (fun _ => []) .jnull [] = none ∧
    jx_dom_find_fields_raw_reuse (fun _ => []) .jnull [[[97]], []] = none ∧
    (jx_dom_find_field_raw (fun _ => []) .jnull [[97]]).isSome = true := by
  refine ⟨?_, ?_, ?_⟩
  · exact (raw_chain_nonempty_required (fun _ => []) .jnull).1
  · exact (raw_chain_nonempty_required (fun _ => []) .jnull).2.2.1
      [[[97]]] [] (by intro c hc; simp at hc; simp [hc])
  · exact ((raw_chain_nonempty_required (fun _ => []) .jnull).2.2.2
      [[97]] (by simp)).1

-- ---------------------------------------------------------------------------
-- C8: array-map-field semantics.
-- ---------------------------------------------------------------------------

/-- An element the fast path cannot handle: neither null nor an object. -/
def bad_elem : JValue → Bool
  | .jnull => false
  | .jobj _ => false
  | _ => true

/-- Modelled from the spec (section 4.4.5): a null element serializes as
null; an object element serializes its secondary-chain subtree, or null
when the chain misses. -/
def map_field_render (ser : JValue → List Nat) (chain : List (List Nat)) :
    JValue → List Nat
  | .jnull => [110, 117, 108, 108]
  | .jobj fs =>
      (match navigate_fields (.jobj fs) chain with
       | some w => ser w
       | none => [110, 117, 108, 108])
  | _ => []

def joinSep (sep : List Nat) : List (List Nat) → List Nat
  | [] => []
  | [x] => x
  | x :: xs => x ++ sep ++ joinSep sep xs

theorem map_field_loop_bad (ser : JValue → List Nat) (chain : List (List Nat))
    (wrap : Bool) : ∀ (xs : List JValue) (first : Bool),
    (∃ e ∈ xs, bad_elem e = true) →
    map_field_loop ser chain wrap xs first = none := by
  intro xs
  induction xs with
  | nil =>
      intro first h
      simp at h
  | cons e rest ih =>
      intro first h
      cases e with
      | jnull =>
          rw [map_field_loop]
          have hr : ∃ x ∈ rest, bad_elem x = true := by
            rcases h with ⟨x, hx, hbad⟩
            rcases List.mem_cons.mp hx with h1 | h1
            · subst h1; simp [bad_elem] at hbad
            · exact ⟨x, h1, hbad⟩
          rw [ih false hr]
      | jobj fs =>
          rw [map_field_loop]
          have hr : ∃ x ∈ rest, bad_elem x = true := by
            rcases h with ⟨x, hx, hbad⟩
            rcases List.mem_cons.mp hx with h1 | h1
            · subst h1; simp [bad_elem] at hbad
            · exact ⟨x, h1, hbad⟩
          rw [ih false hr]
      | jbool b => rfl
      | jsint n tok => rfl
      | juint u tok => rfl
      | jdbl bits tok => rfl
      | jbig n bits tok => rfl
      | jstr s => rfl
      | jarr ys => rfl

theorem map_field_loop_good (ser : JValue → List Nat) (chain : List (List Nat))
    (wrap : Bool) : ∀ (xs : List JValue) (first : Bool),
    (∀ e ∈ xs, bad_elem e = false) →
    map_field_loop ser chain wrap xs first =
      some ((match xs with
             | [] => []
             | _ :: _ => if first then [] else if wrap then [44] else [10]) ++
            joinSep (if wrap then [44] else [10])
              (xs.map (map_field_render ser chain))) := by
  intro xs
  induction xs with
  | nil =>
      intro first _
      simp [map_field_loop, joinSep]
  | cons e rest ih =>
      intro first hgood
      have he : bad_elem e = false := hgood e (by simp)
      have hrest := ih false (fun x hx => hgood x (by simp [hx]))
      cases e with
      | jnull =>
          rw [map_field_loop, hrest]
          cases rest with
          | nil => simp [joinSep, map_field_render]
          | cons r t =>
              simp only [List.map_cons, joinSep, map_field_render]
              cases first <;> simp [joinSep]
      | jobj fs =>
          rw [map_field_loop, hrest]
          cases rest with
          | nil => simp [joinSep, map_field_render]
          | cons r t =>
              simp only [List.map_cons, joinSep, map_field_render]
              cases first <;> simp [joinSep]
      | jbool b => simp [bad_elem] at he
      | jsint n tok => simp [bad_elem] at he
      | juint u tok => simp [bad_elem] at he
      | jdbl bits tok => simp [bad_elem] at he
      | jbig n bits tok => simp [bad_elem] at he
      | jstr s => simp [bad_elem] at he
      | jarr ys => simp [bad_elem] at he

/-- C8: when the prefix chain resolves to an array, array-map-field emits
the null bytes for each null element and for each element whose secondary
chain misses, and returns the soft sentinel for the whole call (with no
output) as soon as any element is neither null nor an object. -/
theorem array_map_field_semantics (ser : JValue → List Nat) (v : JValue)
    (pre chain : List (List Nat)) (wrap : Bool) (xs : List JValue)
    (hnav : navigate_fields v pre = some (.jarr xs)) :
    ((∃ e ∈ xs, bad_elem e = true) →
        jx_dom_array_map_field ser v pre chain wrap = .error SOFT_MISS) ∧
    ((∀ e ∈ xs, bad_elem e = false) →
        jx_dom_array_map_field ser v pre chain wrap =
          .ok (if wrap
               then 91 :: joinSep [44] (xs.map (map_field_render ser chain)) ++ [93]
               else joinSep [10] (xs.map (map_field_render ser chain)))) := by
  constructor
  · intro hbad
    rw [jx_dom_array_map_field, hnav]
    simp only [map_field_loop_bad ser chain wrap xs true hbad]
  · intro hgood
    rw [jx_dom_array_map_field, hnav]
    simp only [map_field_loop_good ser chain wrap xs true hgood]
    cases xs with
    | nil => cases wrap <;> simp [joinSep]
    | cons e rest => cases wrap <;> simp

/-- Witness for C8 over the array holding null and one object, and over an
array holding a number. -/
theorem array_map_field_semantics_witness :
    jx_dom_array_map_field (fun _ => [42])
      (.jarr [.jnull, .jobj [([97], .jsint 1 [49])]]) [] [[97]] true =
      .ok (91 :: joinSep [44]
        ([JValue.jnull, .jobj [([97], .jsint 1 [49])]].map
          (map_field_render (fun _ => [42]) [[97]])) ++ [93]) ∧
    jx_dom_array_map_field (fun _ => [42])
      (.jarr [.jsint 1 [49]]) [] [[97]] true = .error SOFT_MISS := by
  constructor
  · exact (array_map_field_semantics (fun _ => [42])
      (.jarr [.jnull, .jobj [([97], .jsint 1 [49])]]) [] [[97]] true
      [.jnull, .jobj [([97], .jsint 1 [49])]] rfl).2
      (by intro e he
          simp at he
          rcases he with h | h <;> simp [h, bad_elem])
  · exact (array_map_field_semantics (fun _ => [42])
      (.jarr [.jsint 1 [49]]) [] [[97]] true [.jsint 1 [49]] rfl).1
      ⟨.jsint 1 [49], by simp, rfl⟩
